import Mathlib

/-!
Verification of `django-dataforms` (`dataforms/forms.py`) against its
natural-language specification.

The Python source is shallowly embedded: slugs and other Python strings are
modelled as `List Char`, Python dictionaries as association lists in insertion
order, Django querysets as Lean lists, and every fallible Python operation
(`list.index`, `QuerySet.get`, `assert`, indexing a list with a tuple, ...)
returns `Except PyErr`.  Database tables are the fields of an explicit
`DBState` record and `save()` is a state-passing function over it.
-/

set_option autoImplicit false

namespace Dataforms

/-- Python strings / slugs are modelled as lists of characters. -/
abbrev Slug := List Char

/-- Shorthand turning a Lean string literal into a modelled Python string. -/
def str (s : String) : Slug := s.data

/-- Errors a modelled Python operation can raise. -/
inductive PyErr where
  /-- `QuerySet.get` found no row (`DoesNotExist`). -/
  | doesNotExist : PyErr
  /-- `QuerySet.get` / `get_or_create` found several rows. -/
  | multipleObjectsReturned : PyErr
  /-- Indexing past the end of a list / `names[1]` on a 1-element split. -/
  | indexError : PyErr
  /-- `list.index` did not find the element. -/
  | valueError : PyErr
  /-- Operating on a value of the wrong shape (tuple index, iterating `None`). -/
  | typeError : PyErr
  /-- A failed `assert` statement. -/
  | assertionError : PyErr
  /-- `FieldError` raised by `get_bindings` for a binding with no parent. -/
  | fieldError : PyErr
  /-- `SectionDoesNotExist(section)` raised by `BaseCollection.set_section`. -/
  | sectionDoesNotExist (sec : Option Slug) : PyErr
deriving DecidableEq, Repr

/-! ## Key mangling (`_field_for_form` / `_field_for_db`)

`FIELD_DELIMITER` lives in `dataforms/settings.py`, which is not part of the
sources under analysis; the docstrings of `_field_for_form` and
`_field_for_db` ("`field-name --> form-name--field-name`",
"`id_form-name--field-name --> field-name`") pin it down as `--`, which is
what we use. -/

/-- Modelled from the spec: the reserved key-mangling delimiter
(`FIELD_DELIMITER` in the absent `settings.py`); the source docstrings show
`form-name--field-name`, so it is the two-character string `--`. -/
def FIELD_DELIMITER : Slug := ['-', '-']

/-- Python `str.split(sep)` specialised to a two-character separator
`[c0, c1]`: scan left to right, cutting at each leftmost non-overlapping
occurrence of the separator. -/
def pySplit2 (c0 c1 : Char) : List Char → List (List Char)
  | [] => [[]]
  | [a] => [[a]]
  | a :: b :: rest =>
    if a = c0 ∧ b = c1 then
      [] :: pySplit2 c0 c1 rest
    else
      match pySplit2 c0 c1 (b :: rest) with
      | [] => [[a]]
      | g :: gs => (a :: g) :: gs

/-- `name.split(FIELD_DELIMITER)` as in `_field_for_db`. -/
def pySplit (s : Slug) : List Slug := pySplit2 '-' '-' s

/-- Python substring test `sub in s` for a non-empty `sub = d0 :: ds`. -/
def containsSeq (d0 : Char) (ds : List Char) : List Char → Bool
  | [] => false
  | a :: rest => (d0 :: ds).isPrefixOf (a :: rest) || containsSeq d0 ds rest

/-- `s` contains the delimiter `--`. -/
def hasDelim (s : Slug) : Bool := containsSeq '-' ['-'] s

/-- `s` contains the UI id prefix `id_` somewhere (Python `"id_" in s`). -/
def hasIdMark (s : Slug) : Bool := containsSeq 'i' ['d', '_'] s

/-- `_field_for_form(name, form)`: mangle a field slug by prepending the form
slug and the delimiter (`"%s%s%s" % (form, FIELD_DELIMITER, name)`). -/
def field_for_form (name form : Slug) : Slug := form ++ FIELD_DELIMITER ++ name

/-- `_field_for_db(name)` with the default `packed_return=False`:
`name.split(FIELD_DELIMITER)[1]`.  `Option.none` models the `IndexError`
raised when the split has fewer than two parts. -/
def field_for_db (name : Slug) : Option Slug := (pySplit name)[1]?

/-- `_field_for_db(name, packed_return=True)`:
`(names[0][len("id_") if "id_" in names[0] else 0:], names[1])`.
Note the source tests `"id_" in names[0]` — substring containment, not a
prefix test — and unconditionally drops the first three characters when the
test succeeds. -/
def field_for_db_packed (name : Slug) : Option (Slug × Slug) := do
  let n0 ← (pySplit name)[0]?
  let n1 ← (pySplit name)[1]?
  some (n0.drop (if hasIdMark n0 then 3 else 0), n1)

/-- The field slug recovered from a mangled form key; `save()` uses this for
its `Field` lookup. -/
def unpackSlug (key : Slug) : Option Slug := field_for_db key

/-! ## Collections (`BaseCollection`)

A member form of a collection is modelled by the three attributes the
collection-level code reads: the outcome its `is_valid()` call would
return, its `section` tag, and a numeric tag distinguishing form objects. -/

/-- A built form as seen by `BaseCollection`: the result its `is_valid()`
would produce, its `section` attribute, and an identity tag. -/
structure ColForm where
  valid : Bool
  sectionTag : Slug
  tag : Nat
deriving DecidableEq, Repr

/-- The state of a `BaseCollection` object: the raw ordered form list, the
deduplicated section slugs, the visibility mask `__form_existence`, and the
current/next/previous section pointers recomputed by `set_section`. -/
structure BaseCollection where
  title : Slug
  description : Slug
  slug : Slug
  forms : List ColForm
  sections : List Slug
  formExistence : List Bool
  sectionIdx : Nat
  nextSectionIdx : Option Nat
  prevSectionIdx : Option Nat
  curSection : Slug
  next_section : Option Slug
  prev_section : Option Slug
deriving DecidableEq, Repr

/-- Python truthiness of the `section` argument of `set_section`
(`... if section else 0`): `None` and the empty string are falsy. -/
def sectionTruthy : Option Slug → Bool
  | Option.none => false
  | some s => !s.isEmpty

/-- Python `list.index` returning `none` for the `ValueError` case. -/
def pyIndex (l : List Slug) (x : Slug) : Option Nat :=
  match l with
  | [] => Option.none
  | y :: ys => if y = x then some 0 else (pyIndex ys x).map (· + 1)

/-- The visibility mask `set_section` computes before checking it:
all-`True` for `section=None`, else one entry per form comparing its
`section` attribute to the requested slug. -/
def expectedMask (c : BaseCollection) (sec : Option Slug) : List Bool :=
  match sec with
  | Option.none => c.forms.map (fun _ => true)
  | some s => c.forms.map (fun f => f.sectionTag = s)

/-- `BaseCollection.set_section(section)`: recompute `__form_existence`,
raise `SectionDoesNotExist` if no entry is `True`, then recompute the
current/next/previous section indices and objects. -/
def set_section (c : BaseCollection) (sec : Option Slug) :
    Except PyErr BaseCollection :=
  if true ∈ expectedMask c sec then
    match (if sectionTruthy sec then pyIndex c.sections (sec.getD []) else some 0) with
    | Option.none => .error .valueError
    | some idx =>
      match c.sections[idx]? with
      | Option.none => .error .indexError
      | some secObj =>
        .ok { c with
              formExistence := expectedMask c sec
              sectionIdx := idx
              nextSectionIdx :=
                if idx + 1 < c.sections.length then some (idx + 1) else Option.none
              prevSectionIdx := if 1 ≤ idx then some (idx - 1) else Option.none
              curSection := secObj
              next_section :=
                (if idx + 1 < c.sections.length then some (idx + 1)
                 else (Option.none : Option Nat)).bind (fun i => c.sections[i]?)
              prev_section :=
                (if 1 ≤ idx then some (idx - 1)
                 else (Option.none : Option Nat)).bind (fun i => c.sections[i]?) }
  else .error (.sectionDoesNotExist sec)

/-- `BaseCollection.__len__`: the number of `True` entries of the mask. -/
def cLen (c : BaseCollection) : Nat :=
  (c.formExistence.filter (fun b => b)).length

/-- The forms visible under the current mask, in raw-list order. -/
def maskedForms (c : BaseCollection) : List ColForm :=
  ((c.forms.zip c.formExistence).filter (fun p => p.2)).map (fun p => p.1)

/-- The loop body of `BaseCollection.__getitem__`: walk form/mask pairs,
incrementing `fake_index` at every visible form and returning the current
form as soon as `fake_index == arg`; falling off the end models the
`IndexError` raised by `self.__form_existence[len(self.forms)]`. -/
def pyGetItemGo (pairs : List (ColForm × Bool)) (arg fake : Int) : Option ColForm :=
  match pairs with
  | [] => Option.none
  | (f, vis) :: rest =>
    if (if vis then fake + 1 else fake) = arg then some f
    else pyGetItemGo rest arg (if vis then fake + 1 else fake)

/-- `BaseCollection.__getitem__(arg)` (with `fake_index` starting at `-1`). -/
def pyGetItem (c : BaseCollection) (arg : Int) : Option ColForm :=
  pyGetItemGo (c.forms.zip c.formExistence) arg (-1)

/-- Iterating a `BaseCollection` (`for form in self`): Python falls back to
the `__getitem__` protocol, calling `self[0]`, `self[1]`, ... until an
`IndexError` terminates the loop.  The fuel bound `len(forms) + 1` is enough
because at most `len(forms)` indices can return a form. -/
def pyIterGo (c : BaseCollection) (i : Nat) : Nat → List ColForm
  | 0 => []
  | fuel + 1 =>
    match pyGetItem c (Int.ofNat i) with
    | Option.none => []
    | some f => f :: pyIterGo c (i + 1) fuel

/-- The list of forms produced by iterating the collection. -/
def pyIter (c : BaseCollection) : List ColForm :=
  pyIterGo c 0 (c.forms.length + 1)

/-- `BaseCollection.is_valid`: iterate the visible forms, returning `False`
as soon as one form's `is_valid()` is false. -/
def coll_is_valid_go : List ColForm → Bool
  | [] => true
  | f :: rest => if f.valid then coll_is_valid_go rest else false

/-- Result of `BaseCollection.is_valid()`. -/
def coll_is_valid (c : BaseCollection) : Bool := coll_is_valid_go (pyIter c)

/-- How many member forms have their `is_valid()` actually called by
`BaseCollection.is_valid()`: the loop body calls it once per iteration and
`return False` stops the loop. -/
def coll_is_valid_calls_go : List ColForm → Nat
  | [] => 0
  | f :: rest => if f.valid then coll_is_valid_calls_go rest + 1 else 1

/-- Number of per-form `is_valid()` calls made by `BaseCollection.is_valid()`. -/
def coll_is_valid_calls (c : BaseCollection) : Nat :=
  coll_is_valid_calls_go (pyIter c)

/-- Indexing a Python list with a tuple, as `self.forms[start, end]` does in
`__getslice__`: CPython raises `TypeError` (list indices must be integers),
before any surrounding call is made. -/
def pyListGetTuple (_l : List ColForm) (_idx : Int × Int) :
    Except PyErr (List ColForm) :=
  .error .typeError

/-- `BaseCollection.__getslice__(start, end)`: evaluates
`self.forms[start, end]` — a tuple index, hence a `TypeError` — and even if
that were repaired, the `BaseCollection(...)` call omits the constructor's
required `sections` argument, another `TypeError`. -/
def getslice (c : BaseCollection) (start stop : Int) :
    Except PyErr BaseCollection :=
  match pyListGetTuple c.forms (start, stop) with
  | .error e => .error e
  | .ok _fs => .error .typeError

/-! ## Bindings (`get_bindings`) -/

/-- A `Binding` row: the child field, an optional parent field, and an
optional parent choice carrying its owning field's slug and its value. -/
structure BindingRow where
  child : Slug
  parentField : Option Slug
  parentChoice : Option (Slug × Slug)
deriving DecidableEq, Repr

/-- One element of the JSON payload produced by `get_bindings`: a 2-tuple
for a field-level binding or a 3-tuple for a choice-level binding. -/
inductive BindingTuple where
  | pair (parent child : Slug) : BindingTuple
  | triple (parent choiceValue child : Slug) : BindingTuple
deriving DecidableEq, Repr

/-- The tuple `get_bindings` emits for one binding row that has at least one
parent reference set (the `parent_field` branch wins when both are set). -/
def bindingTupleOf (formSlug : Slug) (b : BindingRow) : BindingTuple :=
  match b.parentField with
  | some pf =>
      .pair (field_for_form pf formSlug) (field_for_form b.child formSlug)
  | Option.none =>
      match b.parentChoice with
      | some pc =>
          .triple (field_for_form pc.1 formSlug) pc.2
            (field_for_form b.child formSlug)
      | Option.none => .pair [] []

/-- `get_bindings(form)`: map every binding row of a form to a mangled
2-tuple or 3-tuple, raising `FieldError` for a row with neither a parent
field nor a parent choice. -/
def get_bindings (formSlug : Slug) : List BindingRow → Except PyErr (List BindingTuple)
  | [] => .ok []
  | b :: rest =>
    match b.parentField with
    | some _ =>
      match get_bindings formSlug rest with
      | .error e => .error e
      | .ok out => .ok (bindingTupleOf formSlug b :: out)
    | Option.none =>
      match b.parentChoice with
      | some _ =>
        match get_bindings formSlug rest with
        | .error e => .error e
        | .ok out => .ok (bindingTupleOf formSlug b :: out)
      | Option.none => .error .fieldError

/-! ## Field classification (`settings.py` classification sets)

The classification sets (`CHOICE_FIELDS`, `SINGLE_NUMBER_FIELDS`,
`MULTI_NUMBER_FIELDS`, `MULTI_CHOICE_FIELDS`) live in `settings.py`, absent
from the sources; they are carried as explicit configuration data, as the
spec describes them ("classification sets partitioning type tags"). -/

/-- Modelled from the spec: the field-type classification sets defined in the
absent `settings.py` — lists of type tags for choice-typed fields,
single-number fields, multi-number fields, and the multi-choice subset used
by `get_answers`. -/
structure Cfg where
  choiceFields : List Slug
  singleNumberFields : List Slug
  multiNumberFields : List Slug
  multiChoiceFields : List Slug
deriving DecidableEq, Repr

/-! ## Cleaned Python values -/

/-- An atomic cleaned-data value: a string, an integer, a boolean or `None`. -/
inductive PyAtom where
  | str (s : Slug) : PyAtom
  | num (n : Int) : PyAtom
  | bool (b : Bool) : PyAtom
  | none : PyAtom
deriving DecidableEq, Repr

/-- A cleaned-data value as `save()` sees it: an atom or a flat list of
atoms (validated form data never nests lists). -/
inductive PyVal where
  | str (s : Slug) : PyVal
  | num (n : Int) : PyVal
  | bool (b : Bool) : PyVal
  | none : PyVal
  | list (l : List PyAtom) : PyVal
deriving DecidableEq, Repr

/-- Python truthiness of a cleaned value. -/
def pyTruthy : PyVal → Bool
  | .str s => !s.isEmpty
  | .num n => n != 0
  | .bool b => b
  | .none => false
  | .list l => !l.isEmpty

/-- Python `len(v)` (`none` models the `TypeError` on unsized values). -/
def pyLen : PyVal → Option Nat
  | .str s => some s.length
  | .list l => some l.length
  | _ => Option.none

/-- Python `v[0]` (`none` models `IndexError`/`TypeError`). -/
def pyIndex0 : PyVal → Option PyAtom
  | .str (c :: _) => some (.str [c])
  | .list (x :: _) => some x
  | _ => Option.none

/-- Iterating a cleaned value (`for num in ...`): lists yield their
elements, strings yield one-character strings, everything else raises. -/
def pyIterList : PyVal → Option (List PyAtom)
  | .list l => some l
  | .str s => some (s.map (fun c => .str [c]))
  | _ => Option.none

/-- The isinstance-wrap of the choice branch: a bare string becomes a
one-element list, a list is kept, anything else makes the subsequent
`value__in` lookup raise. -/
def normalizeToList : PyVal → Option (List PyAtom)
  | .str s => some [.str s]
  | .list l => some l
  | _ => Option.none

/-- A numeric value as stored into `AnswerNumber.number` (`none` models the
database-layer coercion failure on non-numeric input; Python booleans are
integers). -/
def toNumber : PyAtom → Option Int
  | .num n => some n
  | .bool b => some (if b then 1 else 0)
  | _ => Option.none

/-- The text stored into `AnswerText.text` for a cleaned value, after the
string coercion of the storage layer.  The representation of a list-valued
cleaned value is abbreviated: no classified-as-text field ever holds one,
and no claim depends on it. -/
def textOf : PyVal → Slug
  | .str s => s
  | .num n => (toString n).data
  | .bool b => if b then "True".data else "False".data
  | .none => "None".data
  | .list _ => "[...]".data

/-- The `content` local of the text branch:
`self.cleaned_data[key] if self.cleaned_data[key] else ''`. -/
def contentOf (v : PyVal) : PyVal := if pyTruthy v then v else .str []

/-! ## The database state and `BaseDataForm.save()` -/

/-- The identity of an `Answer` row: the (Submission, Field, DataForm)
slug triple, unique per triple. -/
structure AnswerKey where
  sub : Slug
  field : Slug
  form : Slug
deriving DecidableEq, Repr

/-- A `Field` row: its slug and its `field_type` tag. -/
structure DField where
  slug : Slug
  field_type : Slug
deriving DecidableEq, Repr

/-- The store as `save()` touches it: the `Submission`, `DataForm`, `Field`
and `Choice` tables, the `Answer` rows, and the three value-shape tables
(`AnswerChoice` rows referencing a `Choice` primary key, `AnswerNumber`
rows, `AnswerText` rows). -/
structure DBState where
  submissions : List Slug
  dataForms : List Slug
  fields : List DField
  choices : List (Nat × Slug)
  answers : List AnswerKey
  answerChoices : List (AnswerKey × Nat)
  answerNumbers : List (AnswerKey × Int)
  answerTexts : List (AnswerKey × Slug)
deriving DecidableEq, Repr

/-- The rows of one value-shape table belonging to one `Answer`. -/
def rowsOf {β : Type} (l : List (AnswerKey × β)) (key : AnswerKey) :
    List (AnswerKey × β) :=
  l.filter (fun r => r.1 == key)

/-- Stored choice rows of an answer. -/
def rowsChoices (db : DBState) (key : AnswerKey) : List (AnswerKey × Nat) :=
  rowsOf db.answerChoices key

/-- Stored number rows of an answer. -/
def rowsNum (db : DBState) (key : AnswerKey) : List (AnswerKey × Int) :=
  rowsOf db.answerNumbers key

/-- Stored text rows of an answer. -/
def rowsText (db : DBState) (key : AnswerKey) : List (AnswerKey × Slug) :=
  rowsOf db.answerTexts key

/-- Number of `Answer` rows with a given (Submission, Field, DataForm) key. -/
def countAnswers (db : DBState) (key : AnswerKey) : Nat :=
  (db.answers.filter (fun a => a == key)).length

/-- `Field.objects.get(slug=...)`. -/
def lookupField (fields : List DField) (slug : Slug) : Except PyErr DField :=
  match fields.filter (fun f => f.slug == slug) with
  | [] => .error .doesNotExist
  | [f] => .ok f
  | _ => .error .multipleObjectsReturned

/-- `DataForm.objects.get(slug=...)`. -/
def lookupForm (dataForms : List Slug) (slug : Slug) : Except PyErr Slug :=
  match dataForms.filter (fun s => s == slug) with
  | [] => .error .doesNotExist
  | [s] => .ok s
  | _ => .error .multipleObjectsReturned

/-- `Submission.objects.get_or_create(slug=...)`; the boolean is
`was_created`. -/
def getOrCreateSubmission (db : DBState) (slug : Slug) :
    Except PyErr (DBState × Bool) :=
  match db.submissions.filter (fun s => s == slug) with
  | [] => .ok ({ db with submissions := db.submissions ++ [slug] }, true)
  | [_] => .ok (db, false)
  | _ => .error .multipleObjectsReturned

/-- `Answer.objects.get_or_create(submission=..., field=..., data_form=...)`;
the boolean is `was_created`. -/
def getOrCreateAnswer (db : DBState) (key : AnswerKey) :
    Except PyErr (DBState × Bool) :=
  match db.answers.filter (fun a => a == key) with
  | [] => .ok ({ db with answers := db.answers ++ [key] }, true)
  | [_] => .ok (db, false)
  | _ => .error .multipleObjectsReturned

/-- The storage-routing branch of `save()` for one field, after the
`Answer` row has been obtained: delete-and-recreate for choice and number
shapes, create-or-overwrite for the text shape. -/
def processBranch (cfg : Cfg) (db : DBState) (key : AnswerKey) (fld : DField)
    (v : PyVal) (wasCreated : Bool) : Except PyErr DBState :=
  if fld.field_type ∈ cfg.choiceFields then
    match normalizeToList v with
    | Option.none => .error .typeError
    | some l =>
      .ok { db with answerChoices :=
        db.answerChoices.filter (fun r => r.1 != key) ++
          ((db.choices.filter (fun c => l.contains (PyAtom.str c.2))).map (fun c => (key, c.1))) }
  else if fld.field_type ∈ cfg.singleNumberFields then
    match pyLen v with
    | Option.none => .error .typeError
    | some n =>
      if n = 1 then
        match pyIndex0 v with
        | Option.none => .error .indexError
        | some x =>
          match toNumber x with
          | Option.none => .error .valueError
          | some m =>
            .ok { db with answerNumbers :=
              db.answerNumbers.filter (fun r => r.1 != key) ++ [(key, m)] }
      else .error .assertionError
  else if fld.field_type ∈ cfg.multiNumberFields then
    match pyIterList v with
    | Option.none => .error .typeError
    | some items =>
      match items.mapM toNumber with
      | Option.none => .error .valueError
      | some ms =>
        .ok { db with answerNumbers :=
          db.answerNumbers.filter (fun r => r.1 != key) ++ ms.map (fun m => (key, m)) }
  else
    if wasCreated then
      .ok { db with answerTexts := db.answerTexts ++ [(key, textOf (contentOf v))] }
    else
      match db.answerTexts.filter (fun r => r.1 == key) with
      | [] => .ok { db with answerTexts := db.answerTexts ++ [(key, textOf (contentOf v))] }
      | [_] =>
        .ok { db with answerTexts :=
          db.answerTexts.map (fun r => if r.1 == key then (r.1, textOf (contentOf v)) else r) }
      | _ => .error .multipleObjectsReturned

/-- One iteration of the `for key in self.fields.keys()` loop of `save()`:
reverse-mangle the key, look up the `Field` and the `DataForm`,
get-or-create the `Answer` row, then route the cleaned value. -/
def processField (cfg : Cfg) (sub formSlug : Slug) (db : DBState)
    (kv : Slug × PyVal) : Except PyErr DBState :=
  match unpackSlug kv.1 with
  | Option.none => .error .indexError
  | some slug =>
    match lookupField db.fields slug with
    | .error e => .error e
    | .ok fld =>
      match lookupForm db.dataForms formSlug with
      | .error e => .error e
      | .ok _ =>
        match getOrCreateAnswer db ⟨sub, slug, formSlug⟩ with
        | .error e => .error e
        | .ok (db1, wasCreated) =>
          processBranch cfg db1 ⟨sub, slug, formSlug⟩ fld kv.2 wasCreated

/-- The field loop of `save()`. -/
def saveFields (cfg : Cfg) (sub formSlug : Slug) :
    List (Slug × PyVal) → DBState → Except PyErr DBState
  | [], db => .ok db
  | kv :: rest, db =>
    match processField cfg sub formSlug db kv with
    | .error e => .error e
    | .ok db' => saveFields cfg sub formSlug rest db'

/-- A bound `BaseDataForm` about to be saved: its slug, the caller-supplied
submission slug, the `self.submission` attribute when already set, and the
cleaned data as an ordered mapping from mangled keys to cleaned values. -/
structure FormModel where
  slug : Slug
  submission_slug : Slug
  submission : Option Slug
  fields : List (Slug × PyVal)
deriving DecidableEq, Repr

/-- The submission slug a `save()` call will store under. -/
def subOf (form : FormModel) : Slug :=
  form.submission.getD form.submission_slug

/-- `BaseDataForm.save()`: get-or-create the `Submission` unless
`self.submission` is already set, then run the field loop; returns the new
store and the form object (with `self.submission` now set). -/
def save (cfg : Cfg) (form : FormModel) (db : DBState) :
    Except PyErr (DBState × FormModel) :=
  match form.submission with
  | some sub =>
    match saveFields cfg sub form.slug form.fields db with
    | .error e => .error e
    | .ok db' => .ok (db', form)
  | Option.none =>
    match getOrCreateSubmission db form.submission_slug with
    | .error e => .error e
    | .ok (db1, _) =>
      match saveFields cfg form.submission_slug form.slug form.fields db1 with
      | .error e => .error e
      | .ok db' => .ok (db', { form with submission := some form.submission_slug })

/-! ## Specification predicates for `save()` -/

/-- Composite success/result of the single-number branch: the assertion
`len(cleaned) == 1` together with the stored number. -/
def singleNumOf (v : PyVal) : Option Int :=
  match pyLen v with
  | Option.none => Option.none
  | some n => if n = 1 then (pyIndex0 v).bind toNumber else Option.none

/-- The numbers the multi-number branch stores for a cleaned value. -/
def multiNumsOf (v : PyVal) : Option (List Int) :=
  (pyIterList v).bind (fun items => items.mapM toNumber)

/-- The choice rows the choice branch stores: every `Choice` row of the
global choice table whose value occurs in the normalized cleaned list. -/
def freshChoices (choices : List (Nat × Slug)) (key : AnswerKey)
    (l : List PyAtom) : List (AnswerKey × Nat) :=
  (choices.filter (fun c => l.contains (PyAtom.str c.2))).map (fun c => (key, c.1))

/-- The tables `save()` never writes agree between two states. -/
def metaEq (a b : DBState) : Prop :=
  a.submissions = b.submissions ∧ a.dataForms = b.dataForms
    ∧ a.fields = b.fields ∧ a.choices = b.choices

/-- What one loop iteration of `save()` leaves behind for its own answer,
stated per classification branch against the pre-state `db` and the final
state `db'`: the branch's own value shape is rebuilt purely from the cleaned
value (and the global choice table), and the other two shapes are left
untouched. -/
def FieldPost (cfg : Cfg) (db db' : DBState) (key : AnswerKey)
    (fld : DField) (v : PyVal) : Prop :=
  (fld.field_type ∈ cfg.choiceFields →
    ∃ l, normalizeToList v = some l
      ∧ rowsChoices db' key = freshChoices db.choices key l
      ∧ rowsNum db' key = rowsNum db key ∧ rowsText db' key = rowsText db key)
  ∧ (fld.field_type ∉ cfg.choiceFields → fld.field_type ∈ cfg.singleNumberFields →
    ∃ m, singleNumOf v = some m
      ∧ rowsNum db' key = [(key, m)]
      ∧ rowsChoices db' key = rowsChoices db key ∧ rowsText db' key = rowsText db key)
  ∧ (fld.field_type ∉ cfg.choiceFields → fld.field_type ∉ cfg.singleNumberFields →
      fld.field_type ∈ cfg.multiNumberFields →
    ∃ ms, multiNumsOf v = some ms
      ∧ rowsNum db' key = ms.map (fun m => (key, m))
      ∧ rowsChoices db' key = rowsChoices db key ∧ rowsText db' key = rowsText db key)
  ∧ (fld.field_type ∉ cfg.choiceFields → fld.field_type ∉ cfg.singleNumberFields →
      fld.field_type ∉ cfg.multiNumberFields →
    ((key ∉ db.answers → rowsText db key = []) →
        rowsText db' key = [(key, textOf (contentOf v))])
      ∧ rowsChoices db' key = rowsChoices db key ∧ rowsNum db' key = rowsNum db key)

/-- Sufficient conditions for one loop iteration of `save()` to succeed on a
state in which the field's answer row already exists (as after a first
successful save). -/
def FieldReady (cfg : Cfg) (db : DBState) (sub fs : Slug)
    (k : Slug) (v : PyVal) : Prop :=
  ∃ slug fld, unpackSlug k = some slug
    ∧ lookupField db.fields slug = .ok fld
    ∧ (∃ u, lookupForm db.dataForms fs = .ok u)
    ∧ countAnswers db ⟨sub, slug, fs⟩ = 1
    ∧ (fld.field_type ∈ cfg.choiceFields → ∃ l, normalizeToList v = some l)
    ∧ (fld.field_type ∉ cfg.choiceFields → fld.field_type ∈ cfg.singleNumberFields →
        ∃ m, singleNumOf v = some m)
    ∧ (fld.field_type ∉ cfg.choiceFields → fld.field_type ∉ cfg.singleNumberFields →
        fld.field_type ∈ cfg.multiNumberFields → ∃ ms, multiNumsOf v = some ms)
    ∧ (fld.field_type ∉ cfg.choiceFields → fld.field_type ∉ cfg.singleNumberFields →
        fld.field_type ∉ cfg.multiNumberFields →
        ∃ t, rowsText db ⟨sub, slug, fs⟩ = [t])

/-! ## `get_answers` -/

/-- Modelled from the spec: one row produced by
`Answer.objects.get_answer_data(submission)` (a manager method defined in
the absent `models.py`): the answer's field slug, its form slug, the field's
type tag, and the answer's full stored value list, in which an absent value
appears as null. -/
structure AnswerRowQ where
  field_slug : Slug
  dataform_slug : Slug
  field_type : Slug
  content : List (Option Slug)
deriving DecidableEq, Repr

/-- The value a `get_answers` entry maps to: the full value list for a
multi-valued classification, the first element otherwise. -/
inductive AnswerOut where
  | many (l : List (Option Slug)) : AnswerOut
  | one (v : Option Slug) : AnswerOut
deriving DecidableEq, Repr

/-- The key `get_answers` files an answer row under: the mangled
form-prefixed key when `for_form` is true, else the bare field slug. -/
def answerKeyOf (for_form : Bool) (r : AnswerRowQ) : Slug :=
  if for_form then field_for_form r.field_slug r.dataform_slug else r.field_slug

/-- The skip test of `get_answers`: `answer['content'] and True not in
[True if item is not None else False for item in answer['content']]` —
a non-empty value list all of whose items are null. -/
def answerSkip (r : AnswerRowQ) : Bool :=
  !r.content.isEmpty && r.content.all (fun it => it == Option.none)

/-- Python dictionary assignment `d[k] = v` on an insertion-ordered map. -/
def pyDictSet (d : List (Slug × AnswerOut)) (k : Slug) (v : AnswerOut) :
    List (Slug × AnswerOut) :=
  if d.any (fun p => p.1 == k) then
    d.map (fun p => if p.1 == k then (p.1, v) else p)
  else d ++ [(k, v)]

/-- The loop of `get_answers` over the answer rows, carrying the dictionary
built so far. -/
def get_answers_go (cfg : Cfg) (for_form : Bool) :
    List AnswerRowQ → List (Slug × AnswerOut) → Except PyErr (List (Slug × AnswerOut))
  | [], d => .ok d
  | r :: rest, d =>
    if answerSkip r then get_answers_go cfg for_form rest d
    else if r.field_type ∈ cfg.multiChoiceFields ++ cfg.multiNumberFields then
      get_answers_go cfg for_form rest (pyDictSet d (answerKeyOf for_form r) (.many r.content))
    else
      match r.content with
      | [] => .error .indexError
      | c :: _ => get_answers_go cfg for_form rest (pyDictSet d (answerKeyOf for_form r) (.one c))

/-- `get_answers(submission, for_form)` over the loaded answer rows. -/
def get_answers (cfg : Cfg) (rows : List AnswerRowQ) (for_form : Bool) :
    Except PyErr (List (Slug × AnswerOut)) :=
  get_answers_go cfg for_form rows []

/-- The entry the amended `get_answers` specification predicts for one
non-skipped answer row. -/
def answerOutOf (cfg : Cfg) (r : AnswerRowQ) : AnswerOut :=
  if r.field_type ∈ cfg.multiChoiceFields ++ cfg.multiNumberFields then
    .many r.content
  else .one (r.content.headD Option.none)

/-! ## Concrete fixtures used by the witnesses and counterexamples -/

/-- Binding rows exercising both tuple shapes. -/
def bindRows : List BindingRow :=
  [⟨str "child1", some (str "par"), Option.none⟩,
   ⟨str "child2", Option.none, some (str "pf", str "val")⟩]

/-- A binding row with neither parent reference. -/
def badBindRow : BindingRow := ⟨str "child3", Option.none, Option.none⟩

/-- First member form of the example collection, tagged section `s1`. -/
def form1 : ColForm := ⟨true, str "s1", 1⟩

/-- Second member form of the example collection, tagged section `s1`. -/
def form2 : ColForm := ⟨true, str "s1", 2⟩

/-- Third member form of the example collection, tagged section `s2`. -/
def form3 : ColForm := ⟨true, str "s2", 3⟩

/-- The example collection with the `s1`-only mask active. -/
def collMasked : BaseCollection :=
  { title := str "t", description := str "d", slug := str "c"
    forms := [form1, form2, form3], sections := [str "s1", str "s2"]
    formExistence := [true, true, false]
    sectionIdx := 0, nextSectionIdx := some 1, prevSectionIdx := Option.none
    curSection := str "s1", next_section := some (str "s2")
    prev_section := Option.none }

/-- The example collection with every form visible. -/
def collAll : BaseCollection := { collMasked with formExistence := [true, true, true] }

/-- A two-form collection whose first visible form is invalid. -/
def collInvalidFirst : BaseCollection :=
  { collMasked with
    forms := [⟨false, str "s1", 1⟩, ⟨true, str "s1", 2⟩]
    formExistence := [true, true] }

/-- A classification in which `mc` is a multi-choice type tag. -/
def cfgA : Cfg := ⟨[], [], [], [str "mc"]⟩

/-- An answer row whose stored value list is empty. -/
def emptyContentRow : AnswerRowQ := ⟨str "f", str "fm", str "mc", []⟩

/-- A classification with a multi-choice tag `mc` and a multi-number tag
`mn`; `txt` falls through to the single-valued default. -/
def cfgB : Cfg := ⟨[], [], [str "mn"], [str "mc"]⟩

/-- Answer rows exercising the multi-valued, single-valued and all-null
cases of `get_answers`. -/
def answerRowsW : List AnswerRowQ :=
  [⟨str "f1", str "fm", str "mc", [some (str "x"), some (str "y")]⟩,
   ⟨str "f2", str "fm", str "txt", [some (str "hello")]⟩,
   ⟨str "f3", str "fm", str "txt", [Option.none, Option.none]⟩]

/-- A classification for the `save()` examples: choice tag `choice`,
single-number tag `snum`, multi-number tag `mnum`. -/
def cfgS : Cfg := ⟨[str "choice"], [str "snum"], [str "mnum"], []⟩

/-- An initial store with one `DataForm`, four `Field` rows of the four
classifications, a three-row global choice table and no answers. -/
def dbW : DBState :=
  { submissions := [], dataForms := [str "fm"],
    fields := [⟨str "f1", str "choice"⟩, ⟨str "f2", str "mnum"⟩,
               ⟨str "f3", str "snum"⟩, ⟨str "f4", str "text"⟩],
    choices := [(1, str "A"), (2, str "B"), (3, str "C")],
    answers := [], answerChoices := [], answerNumbers := [], answerTexts := [] }

/-- The `Answer` identity of field `f1` of form `fm` under submission
`sub`. -/
def keyF1 : AnswerKey := ⟨str "sub", str "f1", str "fm"⟩

/-- The `Answer` identity of field `f2`. -/
def keyF2 : AnswerKey := ⟨str "sub", str "f2", str "fm"⟩

/-- The `Answer` identity of field `f3`. -/
def keyF3 : AnswerKey := ⟨str "sub", str "f3", str "fm"⟩

/-- The `Answer` identity of field `f4`. -/
def keyF4 : AnswerKey := ⟨str "sub", str "f4", str "fm"⟩

/-- A form whose cleaned data selects choices A and B and stores the
numbers 1, 2, 3. -/
def formAB : FormModel :=
  { slug := str "fm", submission_slug := str "sub", submission := Option.none,
    fields := [(str "fm--f1", PyVal.list [.str (str "A"), .str (str "B")]),
               (str "fm--f2", PyVal.list [.num 1, .num 2, .num 3])] }

/-- `formAB` as returned by its own `save()` (with `self.submission` set). -/
def formABs : FormModel := { formAB with submission := some (str "sub") }

/-- A later submission of the same fields selecting only choice C and the
single number 5. -/
def formC : FormModel :=
  { slug := str "fm", submission_slug := str "sub", submission := Option.none,
    fields := [(str "fm--f1", PyVal.list [.str (str "C")]),
               (str "fm--f2", PyVal.list [.num 5])] }

/-- `formC` as returned by its own `save()`. -/
def formCs : FormModel := { formC with submission := some (str "sub") }

/-- The store after `save cfgS formAB dbW`. -/
def dbW1 : DBState :=
  { submissions := [str "sub"], dataForms := [str "fm"],
    fields := [⟨str "f1", str "choice"⟩, ⟨str "f2", str "mnum"⟩,
               ⟨str "f3", str "snum"⟩, ⟨str "f4", str "text"⟩],
    choices := [(1, str "A"), (2, str "B"), (3, str "C")],
    answers := [keyF1, keyF2],
    answerChoices := [(keyF1, 1), (keyF1, 2)],
    answerNumbers := [(keyF2, 1), (keyF2, 2), (keyF2, 3)],
    answerTexts := [] }

/-- The store after `save cfgS formC dbW1`. -/
def dbW2 : DBState :=
  { submissions := [str "sub"], dataForms := [str "fm"],
    fields := [⟨str "f1", str "choice"⟩, ⟨str "f2", str "mnum"⟩,
               ⟨str "f3", str "snum"⟩, ⟨str "f4", str "text"⟩],
    choices := [(1, str "A"), (2, str "B"), (3, str "C")],
    answers := [keyF1, keyF2],
    answerChoices := [(keyF1, 3)],
    answerNumbers := [(keyF2, 5)],
    answerTexts := [] }

/-- A form handing the single-number field `f3` a two-element cleaned
list — the data the `assert` rejects. -/
def formBad : FormModel :=
  { slug := str "fm", submission_slug := str "sub", submission := Option.none,
    fields := [(str "fm--f3", PyVal.list [.num 7, .num 8])] }

/-- A form handing the single-number field `f3` the sole number 7. -/
def formSnum : FormModel :=
  { slug := str "fm", submission_slug := str "sub", submission := Option.none,
    fields := [(str "fm--f3", PyVal.list [.num 7])] }

/-- `formSnum` as returned by its own `save()`. -/
def formSnumS : FormModel := { formSnum with submission := some (str "sub") }

/-- The store after `save cfgS formSnum dbW`. -/
def dbSnum1 : DBState :=
  { submissions := [str "sub"], dataForms := [str "fm"],
    fields := [⟨str "f1", str "choice"⟩, ⟨str "f2", str "mnum"⟩,
               ⟨str "f3", str "snum"⟩, ⟨str "f4", str "text"⟩],
    choices := [(1, str "A"), (2, str "B"), (3, str "C")],
    answers := [keyF3],
    answerChoices := [],
    answerNumbers := [(keyF3, 7)],
    answerTexts := [] }

/-- A form exercising a choice field, a single-number field and a text
field at once. -/
def formT : FormModel :=
  { slug := str "fm", submission_slug := str "sub", submission := Option.none,
    fields := [(str "fm--f1", PyVal.list [.str (str "A")]),
               (str "fm--f3", PyVal.list [.num 7]),
               (str "fm--f4", PyVal.str (str "hello"))] }

/-- `formT` as returned by its own `save()`. -/
def formTs : FormModel := { formT with submission := some (str "sub") }

/-- The store after `save cfgS formT dbW`. -/
def dbT1 : DBState :=
  { submissions := [str "sub"], dataForms := [str "fm"],
    fields := [⟨str "f1", str "choice"⟩, ⟨str "f2", str "mnum"⟩,
               ⟨str "f3", str "snum"⟩, ⟨str "f4", str "text"⟩],
    choices := [(1, str "A"), (2, str "B"), (3, str "C")],
    answers := [keyF1, keyF3, keyF4],
    answerChoices := [(keyF1, 1)],
    answerNumbers := [(keyF3, 7)],
    answerTexts := [(keyF4, str "hello")] }

/-! # Theorems -/

/-- C10: slicing a collection always raises.  `__getslice__` evaluates
`self.forms[start, end]`, a tuple index into a list, which raises
`TypeError` before anything else happens; even the subsequent
`BaseCollection(...)` call would fail, since it omits the constructor's
required `sections` argument.  Hence no sub-collection is ever returned. -/
theorem getslice_always_raises (c : BaseCollection) (start stop : Int) :
    getslice c start stop = .error .typeError ∧
      ∀ c', getslice c start stop ≠ .ok c' := by
  refine ⟨rfl, ?_⟩
  intro c' h
  simp [getslice, pyListGetTuple] at h

/-- Helper: any error of `get_bindings` is the `FieldError`. -/
theorem get_bindings_error_eq (fs : Slug) :
    ∀ (rows : List BindingRow) (e : PyErr),
      get_bindings fs rows = .error e → e = .fieldError := by
  intro rows
  induction rows with
  | nil => intro e h; simp [get_bindings] at h
  | cons b rest ih =>
    intro e h
    cases hpf : b.parentField with
    | some pf =>
      rw [get_bindings, hpf] at h
      cases hrec : get_bindings fs rest with
      | error e' => rw [hrec] at h; injection h with h2; rw [← h2]; exact ih e' hrec
      | ok out => rw [hrec] at h; cases h
    | none =>
      rw [get_bindings, hpf] at h
      cases hpc : b.parentChoice with
      | some pc =>
        rw [hpc] at h
        cases hrec : get_bindings fs rest with
        | error e' => rw [hrec] at h; injection h with h2; rw [← h2]; exact ih e' hrec
        | ok out => rw [hrec] at h; cases h
      | none => rw [hpc] at h; cases h; rfl

/-- Helper: `get_bindings` succeeds with the mapped tuple list when every
binding row has a parent reference. -/
theorem get_bindings_ok_of (fs : Slug) :
    ∀ (rows : List BindingRow),
      (∀ b ∈ rows, b.parentField ≠ Option.none ∨ b.parentChoice ≠ Option.none) →
      get_bindings fs rows = .ok (rows.map (bindingTupleOf fs)) := by
  intro rows
  induction rows with
  | nil => intro _; rfl
  | cons b rest ih =>
    intro h
    have hrec := ih (fun b' hb' => h b' (List.mem_cons_of_mem _ hb'))
    cases hpf : b.parentField with
    | some pf => rw [get_bindings, hpf, hrec]; rfl
    | none =>
      cases hpc : b.parentChoice with
      | some pc => rw [get_bindings, hpf, hpc, hrec]; rfl
      | none =>
        rcases h b (List.mem_cons_self _ _) with h' | h' <;> simp [hpf, hpc] at h'

/-- Helper: `get_bindings` raises the `FieldError` when some binding row has
neither parent reference. -/
theorem get_bindings_error_of (fs : Slug) :
    ∀ (rows : List BindingRow),
      (∃ b ∈ rows, b.parentField = Option.none ∧ b.parentChoice = Option.none) →
      get_bindings fs rows = .error .fieldError := by
  intro rows
  induction rows with
  | nil => rintro ⟨b, hb, -⟩; simp at hb
  | cons b rest ih =>
    rintro ⟨b', hb', hpf', hpc'⟩
    rcases List.mem_cons.mp hb' with rfl | hmem
    · rw [get_bindings, hpf', hpc']
    · have hrec := ih ⟨b', hmem, hpf', hpc'⟩
      cases hpf : b.parentField with
      | some pf => rw [get_bindings, hpf, hrec]
      | none =>
        cases hpc : b.parentChoice with
        | some pc => rw [get_bindings, hpf, hpc, hrec]
        | none => rw [get_bindings, hpf, hpc]

/-- C9: `get_bindings` emits a mangled 2-tuple for every binding whose
parent field is set, a mangled 3-tuple (with the parent choice value) for
every binding whose parent field is unset but whose parent choice is set,
and raises the configuration `FieldError` exactly when some binding has
neither parent reference. -/
theorem get_bindings_spec (fs : Slug) (rows : List BindingRow) :
    (get_bindings fs rows = .error .fieldError ↔
      ∃ b ∈ rows, b.parentField = Option.none ∧ b.parentChoice = Option.none)
    ∧ ((∀ b ∈ rows, b.parentField ≠ Option.none ∨ b.parentChoice ≠ Option.none) →
        get_bindings fs rows = .ok (rows.map (bindingTupleOf fs)))
    ∧ (∀ (b : BindingRow) (pf : Slug), b.parentField = some pf →
        bindingTupleOf fs b =
          .pair (field_for_form pf fs) (field_for_form b.child fs))
    ∧ (∀ (b : BindingRow) (pc : Slug × Slug),
        b.parentField = Option.none → b.parentChoice = some pc →
        bindingTupleOf fs b =
          .triple (field_for_form pc.1 fs) pc.2 (field_for_form b.child fs)) := by
  refine ⟨⟨fun h => ?_, get_bindings_error_of fs rows⟩, get_bindings_ok_of fs rows,
    ?_, ?_⟩
  · by_contra hno
    push_neg at hno
    have : get_bindings fs rows = .ok (rows.map (bindingTupleOf fs)) :=
      get_bindings_ok_of fs rows (fun b hb => by
        rcases Option.eq_none_or_eq_some b.parentField with hpf | ⟨pf, hpf⟩
        · exact Or.inr (hno b hb hpf)
        · exact Or.inl (by simp [hpf]))
    rw [this] at h
    cases h
  · intro b pf h
    simp [bindingTupleOf, h]
  · intro b pc h1 h2
    simp [bindingTupleOf, h1, h2]

/-- Witness for C9 at concrete bindings: a field-level binding yields the
2-tuple, a choice-level binding yields the 3-tuple, and appending a binding
with no parent reference makes the whole call raise `FieldError`. -/
theorem get_bindings_spec_witness :
    get_bindings (str "myform") bindRows =
      .ok [.pair (str "myform--par") (str "myform--child1"),
           .triple (str "myform--pf") (str "val") (str "myform--child2")]
    ∧ get_bindings (str "myform") (bindRows ++ [badBindRow]) =
        .error .fieldError := by
  constructor
  · have h := (get_bindings_spec (str "myform") bindRows).2.1 (by decide)
    rw [h]; exact congrArg Except.ok (by decide)
  · exact (get_bindings_spec (str "myform") (bindRows ++ [badBindRow])).1.mpr
      ⟨badBindRow, by decide, by decide, by decide⟩

/-- Helper: the `__getitem__` loop returns the `k`-th entry of the masked
sublist when started with `fake_index = fake` and asked for `fake + 1 + k`. -/
theorem pyGetItemGo_spec :
    ∀ (pairs : List (ColForm × Bool)) (k : Nat) (fake : Int),
      pyGetItemGo pairs (fake + 1 + k) fake =
        ((pairs.filter (fun p => p.2)).map (fun p => p.1))[k]? := by
  intro pairs
  induction pairs with
  | nil => intro k fake; simp [pyGetItemGo]
  | cons p rest ih =>
    intro k fake
    obtain ⟨f, vis⟩ := p
    cases vis with
    | true =>
      have hx : (if (true : Bool) then fake + 1 else fake) = fake + 1 := rfl
      rcases k with _ | j
      · rw [pyGetItemGo, hx, if_pos (by push_cast; ring)]
        simp
      · rw [pyGetItemGo, hx, if_neg (by push_cast; omega)]
        have h := ih j (fake + 1)
        rw [show fake + 1 + ((j + 1 : Nat) : Int) = fake + 1 + 1 + (j : Int) by
          push_cast; ring, h]
        simp
    | false =>
      have hx : (if (false : Bool) then fake + 1 else fake) = fake := rfl
      rw [pyGetItemGo, hx, if_neg (by push_cast; omega), ih k fake]
      simp

/-- Helper: `__getitem__` at a natural index returns exactly the masked
sublist's entry at that index (and `none` past its end). -/
theorem pyGetItem_eq (c : BaseCollection) (i : Nat) :
    pyGetItem c (i : Int) = (maskedForms c)[i]? := by
  have h := pyGetItemGo_spec (c.forms.zip c.formExistence) i (-1)
  rw [show (-1 : Int) + 1 + (i : Int) = (i : Int) by ring] at h
  exact h

/-- Helper: lengths of masked sublists agree with the count of `True` mask
entries when the mask covers the form list. -/
theorem filter_zip_length :
    ∀ (fs : List ColForm) (ms : List Bool), ms.length = fs.length →
      (ms.filter (fun b => b)).length = ((fs.zip ms).filter (fun p => p.2)).length := by
  intro fs
  induction fs with
  | nil =>
    intro ms h
    cases ms with
    | nil => rfl
    | cons b ms' => simp at h
  | cons f fs' ih =>
    intro ms h
    cases ms with
    | nil => simp at h
    | cons b ms' =>
      cases b <;> simp [List.zip_cons_cons, List.filter_cons, ih ms' (by simpa using h)]

/-- C6: collection indexing is taken over the masked subset — for every
index `i`, `collection[i]` is the `i`-th form among those whose mask entry
is `True` (and is out of range past their count), and `len(collection)`
equals the number of mask-`True` forms. -/
theorem collection_indexing_masked (c : BaseCollection) (i : Nat)
    (h : c.formExistence.length = c.forms.length) :
    pyGetItem c (i : Int) = (maskedForms c)[i]?
    ∧ cLen c = (maskedForms c).length := by
  refine ⟨pyGetItem_eq c i, ?_⟩
  rw [cLen, maskedForms, List.length_map]
  exact filter_zip_length c.forms c.formExistence h

/-- Witness for C6 on forms tagged [s1, s1, s2] with the s1-only mask:
indices 0 and 1 return the two s1 forms, index 2 is out of range, and the
length is 2. -/
theorem collection_indexing_masked_witness :
    pyGetItem collMasked ((0 : Nat) : Int) = some form1
    ∧ pyGetItem collMasked ((1 : Nat) : Int) = some form2
    ∧ pyGetItem collMasked ((2 : Nat) : Int) = Option.none
    ∧ cLen collMasked = 2 := by
  have h0 := collection_indexing_masked collMasked 0 (by decide)
  have h1 := collection_indexing_masked collMasked 1 (by decide)
  have h2 := collection_indexing_masked collMasked 2 (by decide)
  exact ⟨h0.1.trans (by decide), h1.1.trans (by decide),
    h2.1.trans (by decide), h0.2.trans (by decide)⟩

/-- Helper: the result of the `is_valid` loop is the conjunction of the
iterated forms' validities. -/
theorem coll_is_valid_go_all :
    ∀ l : List ColForm, coll_is_valid_go l = l.all (fun f => f.valid) := by
  intro l
  induction l with
  | nil => rfl
  | cons f rest ih => cases hv : f.valid <;> simp [coll_is_valid_go, hv, ih]

/-- Helper: the `is_valid` loop calls the per-form validation once per form
up to and including the first invalid one. -/
theorem coll_is_valid_calls_go_eq :
    ∀ l : List ColForm, coll_is_valid_calls_go l =
      min l.length ((l.takeWhile (fun f => f.valid)).length + 1) := by
  intro l
  induction l with
  | nil => rfl
  | cons f rest ih =>
    cases hv : f.valid <;>
      simp [coll_is_valid_calls_go, hv, List.takeWhile_cons, ih] <;> omega

/-- C3 counterexample: on a collection whose two visible forms are
[invalid, valid], `BaseCollection.is_valid` calls per-form validation only
once — it stops at the first failing form instead of validating all
2 visible forms as the claim requires. -/
theorem collection_is_valid_short_circuits :
    coll_is_valid_calls collInvalidFirst = 1
    ∧ (pyIter collInvalidFirst).length = 2
    ∧ coll_is_valid collInvalidFirst = false := by decide

/-- C3 (amended): `BaseCollection.is_valid` returns false if and only if
some visible form is invalid, but it validates the visible forms in order
only up to and including the first invalid one (all of them when all are
valid) — it does not run validation on every visible form after a failure. -/
theorem collection_is_valid_spec (c : BaseCollection) :
    (coll_is_valid c = false ↔ ∃ f ∈ pyIter c, f.valid = false)
    ∧ coll_is_valid_calls c =
        min (pyIter c).length (((pyIter c).takeWhile (fun f => f.valid)).length + 1) := by
  constructor
  · rw [coll_is_valid, coll_is_valid_go_all, Bool.eq_false_iff, Ne, List.all_eq_true]
    push_neg
    simp
  · exact coll_is_valid_calls_go_eq _

/-- Helper: `list.index` finds an index, within bounds, for any member. -/
theorem pyIndex_of_mem :
    ∀ (l : List Slug) (x : Slug), x ∈ l →
      ∃ i, pyIndex l x = some i ∧ i < l.length := by
  intro l
  induction l with
  | nil => intro x h; simp at h
  | cons y ys ih =>
    intro x h
    by_cases hxy : y = x
    · exact ⟨0, by simp [pyIndex, hxy], by simp⟩
    · have hx : x ∈ ys := by
        rcases List.mem_cons.mp h with rfl | h'
        · exact absurd rfl hxy
        · exact h'
      obtain ⟨i, hi, hlt⟩ := ih x hx
      refine ⟨i + 1, by simp [pyIndex, hxy, hi], by simp; omega⟩

/-- Helper: any index found by `list.index` is within bounds. -/
theorem pyIndex_lt :
    ∀ (l : List Slug) (x : Slug) (i : Nat), pyIndex l x = some i → i < l.length := by
  intro l
  induction l with
  | nil => intro x i h; simp [pyIndex] at h
  | cons y ys ih =>
    intro x i h
    by_cases hxy : y = x
    · simp [pyIndex, hxy] at h
      simp only [List.length_cons]
      omega
    · simp [pyIndex, hxy] at h
      obtain ⟨a, ha, hai⟩ := h
      have := ih x a ha
      simp only [List.length_cons]
      omega

/-- C7: provided every form's section tag occurs in the collection's section
list, `set_section` raises `SectionDoesNotExist` exactly when the requested
mask would select zero forms; otherwise it succeeds, setting the mask to
all-`True` for no section and to exactly the forms tagged with the requested
section otherwise, with the visible length equal to the mask's `True`
count. -/
theorem set_section_spec (c : BaseCollection) (sec : Option Slug)
    (h : ∀ f ∈ c.forms, f.sectionTag ∈ c.sections) :
    (true ∉ expectedMask c sec →
      set_section c sec = .error (.sectionDoesNotExist sec))
    ∧ (true ∈ expectedMask c sec →
      ∃ c', set_section c sec = .ok c'
        ∧ c'.formExistence = expectedMask c sec
        ∧ cLen c' = ((expectedMask c sec).filter (fun b => b)).length) := by
  constructor
  · intro hno
    rw [set_section, if_neg hno]
  · intro hmem
    have hformne : ∃ f, f ∈ c.forms := by
      rcases sec with _ | s <;>
        (simp only [expectedMask, List.mem_map] at hmem
         obtain ⟨f, hf, -⟩ := hmem
         exact ⟨f, hf⟩)
    obtain ⟨f0, hf0⟩ := hformne
    have hsecne : c.sections ≠ [] := by
      intro hnil
      exact absurd (h f0 hf0) (by simp [hnil])
    rw [set_section, if_pos hmem]
    split
    · rename_i heq
      exfalso
      by_cases htr : sectionTruthy sec
      · rcases sec with _ | s
        · simp [sectionTruthy] at htr
        · have hs : ∃ f ∈ c.forms, f.sectionTag = s := by
            simpa [expectedMask] using hmem
          obtain ⟨f, hf, hfs⟩ := hs
          obtain ⟨i, hi, -⟩ := pyIndex_of_mem c.sections s (hfs ▸ h f hf)
          rw [if_pos htr, Option.getD_some, hi] at heq
          cases heq
      · rw [if_neg htr] at heq
        cases heq
    · rename_i idx heq
      split
      · rename_i hnone
        exfalso
        have hlen : c.sections.length ≤ idx := by
          simpa using List.getElem?_eq_none_iff.mp hnone
        by_cases htr : sectionTruthy sec
        · rcases sec with _ | s
          · simp [sectionTruthy] at htr
          · rw [if_pos htr, Option.getD_some] at heq
            have := pyIndex_lt c.sections s idx heq
            omega
        · rw [if_neg htr] at heq
          injection heq with h0
          have : c.sections.length = 0 := by omega
          exact hsecne (List.length_eq_zero.mp this)
      · exact ⟨_, rfl, rfl, rfl⟩

/-- Witness for C7 on forms tagged [s1, s1, s2]: selecting `s2` yields one
visible form, selecting no section yields three, and selecting a section
matching no form raises `SectionDoesNotExist`. -/
theorem set_section_spec_witness :
    (∃ c', set_section collAll (some (str "s2")) = .ok c' ∧ cLen c' = 1)
    ∧ (∃ c', set_section collAll Option.none = .ok c' ∧ cLen c' = 3)
    ∧ set_section collAll (some (str "s9")) =
        .error (.sectionDoesNotExist (some (str "s9"))) := by
  refine ⟨?_, ?_, ?_⟩
  · obtain ⟨c', h1, -, h3⟩ :=
      (set_section_spec collAll (some (str "s2")) (by decide)).2 (by decide)
    exact ⟨c', h1, h3.trans (by decide)⟩
  · obtain ⟨c', h1, -, h3⟩ :=
      (set_section_spec collAll Option.none (by decide)).2 (by decide)
    exact ⟨c', h1, h3.trans (by decide)⟩
  · exact (set_section_spec collAll (some (str "s9")) (by decide)).1 (by decide)

/-- Helper: splitting a string without the delimiter leaves it whole. -/
theorem pySplit2_no_delim :
    ∀ f : Slug, hasDelim f = false → pySplit2 '-' '-' f = [f] := by
  intro f
  induction f with
  | nil => intro _; rfl
  | cons a s' ih =>
    intro hf
    cases s' with
    | nil => rfl
    | cons b s'' =>
      have hsplit : hasDelim (a :: b :: s'') =
          (List.isPrefixOf ['-', '-'] (a :: b :: s'') || hasDelim (b :: s'')) := rfl
      rw [hsplit, Bool.or_eq_false_iff] at hf
      have h1 : ¬(a = '-' ∧ b = '-') := by
        rintro ⟨rfl, rfl⟩
        simp [List.isPrefixOf] at hf
      rw [pySplit2, if_neg h1, ih hf.2]

/-- Helper: when the form component contains no delimiter and does not end
with the delimiter's first character, the first split cut falls exactly at
the appended delimiter. -/
theorem pySplit2_boundary :
    ∀ (s f : Slug), hasDelim s = false → s.getLast? ≠ some '-' →
      pySplit2 '-' '-' (s ++ '-' :: '-' :: f) = s :: pySplit2 '-' '-' f := by
  intro s
  induction s with
  | nil =>
    intro f _ _
    simp [pySplit2]
  | cons a s' ih =>
    intro f hs hlast
    cases s' with
    | nil =>
      have ha : a ≠ '-' := by
        intro h
        exact hlast (by simp [h])
      have hrec : pySplit2 '-' '-' ('-' :: '-' :: f) = [] :: pySplit2 '-' '-' f := by
        simp [pySplit2]
      show pySplit2 '-' '-' (a :: '-' :: '-' :: f) = [a] :: pySplit2 '-' '-' f
      rw [pySplit2, if_neg (by rintro ⟨h1, -⟩; exact ha h1), hrec]
    | cons b s'' =>
      have hsplit : hasDelim (a :: b :: s'') =
          (List.isPrefixOf ['-', '-'] (a :: b :: s'') || hasDelim (b :: s'')) := rfl
      rw [hsplit, Bool.or_eq_false_iff] at hs
      have hpre : ¬(a = '-' ∧ b = '-') := by
        rintro ⟨rfl, rfl⟩
        simp [List.isPrefixOf] at hs
      have hlast' : (b :: s'').getLast? ≠ some '-' := by
        intro hc
        exact hlast (by rw [List.getLast?_cons_cons]; exact hc)
      have hstep := ih f hs.2 hlast'
      rw [List.cons_append] at hstep
      show pySplit2 '-' '-' (a :: b :: (s'' ++ '-' :: '-' :: f)) =
        (a :: b :: s'') :: pySplit2 '-' '-' f
      rw [pySplit2, if_neg hpre, hstep]

/-- C2 counterexample: the claim fails as stated.  For the delimiter-free
slug pair `f = "b"`, `s = "a-"` the split cut falls one character early
(`"a---b".split("--") == ["a", "-b"]`), so unpacking returns `"-b"`, not
`"b"`; and for `s = "grid_x"` (which contains `"id_"` as a substring, though
not as a prefix) packed unpacking strips three characters and returns
`("d_x", "f")`, not `("grid_x", "f")`. -/
theorem key_mangling_not_bijective :
    (hasDelim (str "a-") = false ∧ hasDelim (str "b") = false
      ∧ field_for_db (field_for_form (str "b") (str "a-")) = some (str "-b")
      ∧ str "-b" ≠ str "b")
    ∧ (hasDelim (str "grid_x") = false ∧ hasDelim (str "f") = false
      ∧ field_for_db_packed (field_for_form (str "f") (str "grid_x")) =
          some (str "d_x", str "f")
      ∧ str "d_x" ≠ str "grid_x") := by decide

/-- C2 (amended): key mangling round-trips — `unpack(form_key(f, s)) == f`,
packed unpacking yields `(s, f)`, and a leading UI `id_` prefix is stripped
— for every slug pair in which neither slug contains the delimiter,
provided additionally that the form slug does not end with the delimiter's
first character `'-'` (else the split cut falls inside the slug) and does
not contain `"id_"` anywhere (the source tests substring containment, not a
prefix). -/
theorem key_mangling_roundtrip (f s : Slug)
    (hf : hasDelim f = false) (hs : hasDelim s = false)
    (hlast : s.getLast? ≠ some '-') (hid : hasIdMark s = false) :
    field_for_db (field_for_form f s) = some f
    ∧ field_for_db_packed (field_for_form f s) = some (s, f)
    ∧ field_for_db_packed (str "id_" ++ field_for_form f s) = some (s, f) := by
  have hsplit : pySplit (field_for_form f s) = [s, f] := by
    show pySplit2 '-' '-' (s ++ ['-', '-'] ++ f) = [s, f]
    rw [List.append_assoc]
    show pySplit2 '-' '-' (s ++ '-' :: '-' :: f) = [s, f]
    rw [pySplit2_boundary s f hs hlast, pySplit2_no_delim f hf]
  refine ⟨?_, ?_, ?_⟩
  · show (pySplit (field_for_form f s))[1]? = some f
    rw [hsplit]
    rfl
  · show field_for_db_packed (field_for_form f s) = some (s, f)
    rw [field_for_db_packed, hsplit]
    simp [hid]
  · have hs2 : hasDelim (str "id_" ++ s) = false := by
      have e : hasDelim (str "id_" ++ s) = hasDelim s := by
        show containsSeq '-' ['-'] ('i' :: 'd' :: '_' :: s) = containsSeq '-' ['-'] s
        have c1 : ('-' == 'i') = false := by decide
        have c2 : ('-' == 'd') = false := by decide
        have c3 : ('-' == '_') = false := by decide
        simp [containsSeq, List.isPrefixOf, c1, c2, c3]
      rw [e]
      exact hs
    have hlast2 : (str "id_" ++ s).getLast? ≠ some '-' := by
      cases s with
      | nil => decide
      | cons x xs =>
        rw [List.getLast?_append]
        cases hxs : (x :: xs).getLast? with
        | none => simp at hxs
        | some y =>
          have hy : y ≠ '-' := fun hc => hlast (by rw [hxs, hc])
          simp [Option.or, hy]
    have hsplit2 : pySplit (str "id_" ++ field_for_form f s) =
        [str "id_" ++ s, f] := by
      show pySplit2 '-' '-' (str "id_" ++ (s ++ ['-', '-'] ++ f)) = [str "id_" ++ s, f]
      rw [List.append_assoc]
      show pySplit2 '-' '-' (str "id_" ++ (s ++ '-' :: '-' :: f)) = [str "id_" ++ s, f]
      rw [show str "id_" ++ (s ++ '-' :: '-' :: f) =
        (str "id_" ++ s) ++ '-' :: '-' :: f by rw [List.append_assoc]]
      rw [pySplit2_boundary (str "id_" ++ s) f hs2 hlast2, pySplit2_no_delim f hf]
    have hidt : hasIdMark (str "id_" ++ s) = true := by
      show containsSeq 'i' ['d', '_'] ('i' :: 'd' :: '_' :: s) = true
      simp [containsSeq, List.isPrefixOf]
    rw [field_for_db_packed, hsplit2]
    simp [hidt]
    rfl

/-- Witness for C2 at a concrete slug pair satisfying the amended
hypotheses. -/
theorem key_mangling_roundtrip_witness :
    (hasDelim (str "first_name") = false ∧ hasDelim (str "personal") = false
      ∧ (str "personal").getLast? ≠ some '-' ∧ hasIdMark (str "personal") = false)
    ∧ field_for_db (field_for_form (str "first_name") (str "personal")) =
        some (str "first_name")
    ∧ field_for_db_packed (field_for_form (str "first_name") (str "personal")) =
        some (str "personal", str "first_name")
    ∧ field_for_db_packed (str "id_" ++ field_for_form (str "first_name") (str "personal")) =
        some (str "personal", str "first_name") := by
  have h := key_mangling_roundtrip (str "first_name") (str "personal")
    (by decide) (by decide) (by decide) (by decide)
  exact ⟨⟨by decide, by decide, by decide, by decide⟩, h.1, h.2.1, h.2.2⟩

/-- Helper: assigning a key not yet present appends the pair. -/
theorem pyDictSet_fresh (d : List (Slug × AnswerOut)) (k : Slug) (v : AnswerOut)
    (h : ∀ p ∈ d, p.1 ≠ k) : pyDictSet d k v = d ++ [(k, v)] := by
  have hany : d.any (fun p => p.1 == k) = false := by
    cases hany : d.any (fun p => p.1 == k) with
    | false => rfl
    | true =>
      obtain ⟨p, hp, hpk⟩ := List.any_eq_true.mp hany
      exact absurd (by simpa using hpk) (h p hp)
  simp only [pyDictSet, hany]
  simp

/-- Helper: characterization of the `get_answers` loop for rows with
pairwise distinct keys that are all fresh for the dictionary built so far. -/
theorem get_answers_go_spec (cfg : Cfg) (for_form : Bool) :
    ∀ (rows : List AnswerRowQ) (d : List (Slug × AnswerOut)),
      (rows.map (answerKeyOf for_form)).Nodup →
      (∀ r ∈ rows, ∀ p ∈ d, p.1 ≠ answerKeyOf for_form r) →
      ∀ d', get_answers_go cfg for_form rows d = .ok d' →
        d' = d ++ (rows.filter (fun r => !answerSkip r)).map
          (fun r => (answerKeyOf for_form r, answerOutOf cfg r)) := by
  intro rows
  induction rows with
  | nil =>
    intro d _ _ d' h
    injection h with h2
    simp [h2]
  | cons r rest ih =>
    intro d hnd hfresh d' h
    rw [List.map_cons, List.nodup_cons] at hnd
    obtain ⟨hknotin, hndtail⟩ := hnd
    have hfreshtail : ∀ r' ∈ rest, ∀ p ∈ d, p.1 ≠ answerKeyOf for_form r' :=
      fun r' hr' => hfresh r' (List.mem_cons_of_mem _ hr')
    simp only [get_answers_go] at h
    by_cases hskip : answerSkip r = true
    · rw [if_pos hskip] at h
      rw [ih d hndtail hfreshtail d' h]
      simp [List.filter_cons, hskip]
    · rw [if_neg hskip] at h
      have hfreshr : ∀ p ∈ d, p.1 ≠ answerKeyOf for_form r :=
        hfresh r (List.mem_cons_self _ _)
      have hfresh2 : ∀ r' ∈ rest, ∀ p ∈ d ++ [(answerKeyOf for_form r, answerOutOf cfg r)],
          p.1 ≠ answerKeyOf for_form r' := by
        intro r' hr' p hp
        rcases List.mem_append.mp hp with hp' | hp'
        · exact hfreshtail r' hr' p hp'
        · have hpr : p = (answerKeyOf for_form r, answerOutOf cfg r) := by simpa using hp'
          subst hpr
          intro hc
          apply hknotin
          rw [show answerKeyOf for_form r = answerKeyOf for_form r' from hc]
          exact List.mem_map_of_mem _ hr'
      by_cases hmc : r.field_type ∈ cfg.multiChoiceFields ++ cfg.multiNumberFields
      · rw [if_pos hmc] at h
        rw [pyDictSet_fresh d _ _ hfreshr] at h
        have hout : AnswerOut.many r.content = answerOutOf cfg r := by
          rw [answerOutOf, if_pos hmc]
        rw [hout] at h
        rw [ih _ hndtail hfresh2 d' h]
        simp [List.filter_cons, hskip, List.append_assoc]
      · rw [if_neg hmc] at h
        cases hc : r.content with
        | nil =>
          rw [hc] at h
          have h2 : (Except.error PyErr.indexError :
              Except PyErr (List (Slug × AnswerOut))) = .ok d' := h
          cases h2
        | cons c cs =>
          rw [hc] at h
          have h2 : get_answers_go cfg for_form rest
              (pyDictSet d (answerKeyOf for_form r) (AnswerOut.one c)) = .ok d' := h
          rw [pyDictSet_fresh d _ _ hfreshr] at h2
          have hout : AnswerOut.one c = answerOutOf cfg r := by
            rw [answerOutOf, if_neg hmc, hc]
            rfl
          rw [hout] at h2
          rw [ih _ hndtail hfresh2 d' h2]
          simp [List.filter_cons, hskip, List.append_assoc]

/-- C4 counterexample: an answer row whose entire value list is empty is
not omitted — for a multi-valued classification `get_answers` returns an
entry mapping the key to the empty list, where the claim requires the entry
to be absent. -/
theorem get_answers_empty_not_omitted :
    get_answers cfgA [emptyContentRow] false = .ok [(str "f", AnswerOut.many [])]
    ∧ get_answers cfgA [emptyContentRow] false ≠ .ok [] := by
  have h1 : get_answers cfgA [emptyContentRow] false =
      .ok [(str "f", AnswerOut.many [])] := rfl
  refine ⟨h1, ?_⟩
  rw [h1]
  simp

/-- C4 (amended): for distinct keys, a successful `get_answers` returns
exactly one entry per answer row whose value list is not both non-empty and
all-null (only such rows are omitted; an empty value list is kept — as an
empty-list entry for multi-valued classifications, while single-valued
classifications raise on it): multi-valued classifications map to the full
value list, all others to the first element, under the mangled
form-prefixed key exactly when `for_form` is true and the bare field slug
otherwise. -/
theorem get_answers_spec (cfg : Cfg) (rows : List AnswerRowQ) (for_form : Bool)
    (d' : List (Slug × AnswerOut))
    (hnd : (rows.map (answerKeyOf for_form)).Nodup)
    (hok : get_answers cfg rows for_form = .ok d') :
    d' = (rows.filter (fun r => !answerSkip r)).map
      (fun r => (answerKeyOf for_form r, answerOutOf cfg r)) := by
  have h := get_answers_go_spec cfg for_form rows [] hnd (by simp) d' hok
  simpa using h

/-- Witness for C4 on three concrete rows: a multi-choice row keeps its
full list, a text row maps to its sole element, the all-null row is
omitted, and keys are form-prefixed since `for_form` is true. -/
theorem get_answers_spec_witness :
    get_answers cfgB answerRowsW true =
      .ok [(str "fm--f1", AnswerOut.many [some (str "x"), some (str "y")]),
           (str "fm--f2", AnswerOut.one (some (str "hello")))]
    ∧ [(str "fm--f1", AnswerOut.many [some (str "x"), some (str "y")]),
       (str "fm--f2", AnswerOut.one (some (str "hello")))] =
        (answerRowsW.filter (fun r => !answerSkip r)).map
          (fun r => (answerKeyOf true r, answerOutOf cfgB r)) := by
  refine ⟨rfl, ?_⟩
  exact get_answers_spec cfgB answerRowsW true _ (by decide) rfl

section RowLemmas

variable {β : Type}

/-- Helper: answer-keyed rows distribute over append. -/
theorem rowsOf_append (l₁ l₂ : List (AnswerKey × β)) (k : AnswerKey) :
    rowsOf (l₁ ++ l₂) k = rowsOf l₁ k ++ rowsOf l₂ k :=
  List.filter_append _ _

/-- Helper: deleting a key's rows leaves none of them. -/
theorem rowsOf_delete_self (l : List (AnswerKey × β)) (k : AnswerKey) :
    rowsOf (l.filter (fun r => r.1 != k)) k = [] := by
  induction l with
  | nil => rfl
  | cons r rest ih =>
    by_cases h : r.1 = k
    · simpa [rowsOf, List.filter_cons, h] using ih
    · simpa [rowsOf, List.filter_cons, h] using ih

/-- Helper: deleting one key's rows leaves other keys' rows unchanged. -/
theorem rowsOf_delete_ne (l : List (AnswerKey × β)) {k k' : AnswerKey}
    (h : k' ≠ k) : rowsOf (l.filter (fun r => r.1 != k)) k' = rowsOf l k' := by
  induction l with
  | nil => rfl
  | cons r rest ih =>
    by_cases hr' : r.1 = k'
    · have e1 : ((fun r : AnswerKey × β => r.1 != k) r) = true := by
        simp [bne_iff_ne, hr']
        exact h
      have e2 : ((fun r : AnswerKey × β => r.1 == k') r) = true := by simp [hr']
      show ((r :: rest).filter (fun r => r.1 != k)).filter (fun r => r.1 == k') =
        ((r :: rest).filter (fun r => r.1 == k'))
      rw [List.filter_cons, if_pos e1, List.filter_cons, if_pos e2,
        List.filter_cons, if_pos e2]
      exact congrArg (r :: ·) ih
    · have e2 : ¬(((fun r : AnswerKey × β => r.1 == k') r) = true) := by simp [hr']
      show ((r :: rest).filter (fun r => r.1 != k)).filter (fun r => r.1 == k') =
        ((r :: rest).filter (fun r => r.1 == k'))
      by_cases hr : r.1 = k
      · have e1 : ¬(((fun r : AnswerKey × β => r.1 != k) r) = true) := by
          simp [bne_iff_ne, hr]
        rw [List.filter_cons, if_neg e1, List.filter_cons, if_neg e2]
        exact ih
      · have e1 : ((fun r : AnswerKey × β => r.1 != k) r) = true := by
          simp [bne_iff_ne]
          exact hr
        rw [List.filter_cons, if_pos e1, List.filter_cons, if_neg e2,
          List.filter_cons, if_neg e2]
        exact ih

/-- Helper: freshly inserted rows for a key are all retrieved for it. -/
theorem rowsOf_map_self {γ : Type} (xs : List γ) (f : γ → β) (k : AnswerKey) :
    rowsOf (xs.map (fun x => (k, f x))) k = xs.map (fun x => (k, f x)) := by
  induction xs with
  | nil => rfl
  | cons x rest ih => simpa [rowsOf, List.filter_cons] using ih

/-- Helper: freshly inserted rows for a key are invisible to other keys. -/
theorem rowsOf_map_ne {γ : Type} (xs : List γ) (f : γ → β) {k k' : AnswerKey}
    (h : k' ≠ k) : rowsOf (xs.map (fun x => (k, f x))) k' = [] := by
  induction xs with
  | nil => rfl
  | cons x rest ih =>
    have : k ≠ k' := fun hc => h hc.symm
    simpa [rowsOf, List.filter_cons, this] using ih

/-- Helper: overwriting a key's rows in place rewrites exactly its rows. -/
theorem rowsOf_update_self (l : List (AnswerKey × β)) (k : AnswerKey) (t : β) :
    rowsOf (l.map (fun r => if r.1 == k then (r.1, t) else r)) k =
      (rowsOf l k).map (fun r => (r.1, t)) := by
  induction l with
  | nil => rfl
  | cons r rest ih =>
    simp only [rowsOf] at ih ⊢
    rw [List.map_cons]
    by_cases hr : r.1 = k
    · have hb : (r.1 == k) = true := by simp [hr]
      rw [if_pos hb, List.filter_cons, if_pos (by simpa using hb),
        List.filter_cons, if_pos hb, List.map_cons]
      exact congrArg ((r.1, t) :: ·) ih
    · have hb : ¬((r.1 == k) = true) := by simp [hr]
      rw [if_neg hb, List.filter_cons, if_neg hb, List.filter_cons, if_neg hb]
      exact ih

/-- Helper: overwriting a key's rows in place leaves other keys' rows as
they were. -/
theorem rowsOf_update_ne (l : List (AnswerKey × β)) {k k' : AnswerKey} (t : β)
    (h : k' ≠ k) :
    rowsOf (l.map (fun r => if r.1 == k then (r.1, t) else r)) k' = rowsOf l k' := by
  induction l with
  | nil => rfl
  | cons r rest ih =>
    show ((List.map (fun r => if r.1 == k then (r.1, t) else r) (r :: rest)).filter
        (fun r => r.1 == k')) = ((r :: rest).filter (fun r => r.1 == k'))
    rw [List.map_cons]
    by_cases hr : r.1 = k
    · have hb : (r.1 == k) = true := by simp [hr]
      have hb' : ¬((r.1 == k') = true) := by
        simp [hr]
        exact fun hc => h hc.symm
      rw [if_pos hb, List.filter_cons, if_neg (by simpa using hb'),
        List.filter_cons, if_neg hb']
      exact ih
    · have hb : ¬((r.1 == k) = true) := by simp [hr]
      rw [if_neg hb]
      by_cases hr' : r.1 = k'
      · have hb' : (r.1 == k') = true := by simp [hr']
        rw [List.filter_cons, if_pos hb', List.filter_cons, if_pos hb']
        exact congrArg (r :: ·) ih
      · have hb' : ¬((r.1 == k') = true) := by simp [hr']
        rw [List.filter_cons, if_neg hb', List.filter_cons, if_neg hb']
        exact ih

end RowLemmas

/-- Helper: a filter of length one is a singleton. -/
theorem filter_length_one {α : Type} (p : α → Bool) (l : List α)
    (h : (l.filter p).length = 1) : ∃ a, l.filter p = [a] := by
  cases hf : l.filter p with
  | nil => rw [hf] at h; cases h
  | cons a rest =>
    rw [hf] at h
    simp only [List.length_cons] at h
    have : rest = [] := List.length_eq_zero.mp (by omega)
    exact ⟨a, by rw [this]⟩

/-- Helper: full characterization of `Answer.objects.get_or_create`. -/
theorem getOrCreateAnswer_ok (db : DBState) (key : AnswerKey) (db1 : DBState)
    (wc : Bool) (h : getOrCreateAnswer db key = .ok (db1, wc)) :
    db1.submissions = db.submissions ∧ db1.dataForms = db.dataForms
    ∧ db1.fields = db.fields ∧ db1.choices = db.choices
    ∧ db1.answerChoices = db.answerChoices
    ∧ db1.answerNumbers = db.answerNumbers ∧ db1.answerTexts = db.answerTexts
    ∧ countAnswers db1 key = 1
    ∧ (∀ k', k' ≠ key → countAnswers db1 k' = countAnswers db k')
    ∧ (wc = true ↔ key ∉ db.answers) := by
  rw [getOrCreateAnswer] at h
  cases hfil : db.answers.filter (fun a => a == key) with
  | nil =>
    rw [hfil] at h
    injection h with h1
    injection h1 with hdb hwc
    subst hdb
    subst hwc
    refine ⟨rfl, rfl, rfl, rfl, rfl, rfl, rfl, ?_, ?_, ?_⟩
    · show ((db.answers ++ [key]).filter (fun a => a == key)).length = 1
      rw [List.filter_append, hfil]
      simp
    · intro k' hk'
      show ((db.answers ++ [key]).filter (fun a => a == k')).length = _
      rw [List.filter_append]
      have hone : [key].filter (fun a => a == k') = [] := by
        simp [List.filter_cons]
        exact fun hc => hk' hc.symm
      rw [hone, List.append_nil]
      rfl
    · constructor
      · intro _ hmem
        have hin : key ∈ db.answers.filter (fun a => a == key) :=
          List.mem_filter.mpr ⟨hmem, by simp⟩
        rw [hfil] at hin
        simp at hin
      · intro _
        rfl
  | cons a rest =>
    cases rest with
    | nil =>
      rw [hfil] at h
      injection h with h1
      injection h1 with hdb hwc
      subst hdb
      subst hwc
      have hain : a ∈ db.answers.filter (fun a => a == key) := by rw [hfil]; simp
      have hak : a = key := by simpa using (List.mem_filter.mp hain).2
      refine ⟨rfl, rfl, rfl, rfl, rfl, rfl, rfl, ?_, fun _ _ => rfl, ?_⟩
      · show (db.answers.filter (fun a => a == key)).length = 1
        rw [hfil]
        rfl
      · constructor
        · intro hc
          cases hc
        · intro hno
          exact absurd (hak ▸ (List.mem_filter.mp hain).1) hno
    | cons b rest' =>
      rw [hfil] at h
      cases h

/-- Helper: `Submission.objects.get_or_create` touches only the submission
table. -/
theorem getOrCreateSubmission_ok (db : DBState) (slug : Slug) (db1 : DBState)
    (wc : Bool) (h : getOrCreateSubmission db slug = .ok (db1, wc)) :
    db1.dataForms = db.dataForms ∧ db1.fields = db.fields
    ∧ db1.choices = db.choices ∧ db1.answers = db.answers
    ∧ db1.answerChoices = db.answerChoices
    ∧ db1.answerNumbers = db.answerNumbers ∧ db1.answerTexts = db.answerTexts := by
  rw [getOrCreateSubmission] at h
  cases hfil : db.submissions.filter (fun s => s == slug) with
  | nil =>
    rw [hfil] at h
    injection h with h1
    injection h1 with hdb hwc
    subst hdb
    exact ⟨rfl, rfl, rfl, rfl, rfl, rfl, rfl⟩
  | cons a rest =>
    cases rest with
    | nil =>
      rw [hfil] at h
      injection h with h1
      injection h1 with hdb hwc
      subst hdb
      exact ⟨rfl, rfl, rfl, rfl, rfl, rfl, rfl⟩
    | cons b rest' =>
      rw [hfil] at h
      cases h

/-- Helper: the choice branch of `save()` — delete all of the answer's
choice rows, then attach every choice of the global table whose value is in
the normalized cleaned list; nothing else changes. -/
theorem processBranch_choice_ok (cfg : Cfg) (db : DBState) (key : AnswerKey)
    (fld : DField) (v : PyVal) (wc : Bool) (db' : DBState)
    (hc : fld.field_type ∈ cfg.choiceFields)
    (h : processBranch cfg db key fld v wc = .ok db') :
    ∃ l, normalizeToList v = some l
      ∧ db'.submissions = db.submissions ∧ db'.dataForms = db.dataForms
      ∧ db'.fields = db.fields ∧ db'.choices = db.choices
      ∧ db'.answers = db.answers
      ∧ db'.answerNumbers = db.answerNumbers ∧ db'.answerTexts = db.answerTexts
      ∧ rowsChoices db' key = freshChoices db.choices key l
      ∧ (∀ k', k' ≠ key → rowsChoices db' k' = rowsChoices db k') := by
  unfold processBranch at h
  rw [if_pos hc] at h
  cases hn : normalizeToList v with
  | none =>
    rw [hn] at h
    exact Except.noConfusion h
  | some l =>
    rw [hn] at h
    injection h with h1
    subst h1
    refine ⟨l, rfl, rfl, rfl, rfl, rfl, rfl, rfl, rfl, ?_, ?_⟩
    · show rowsOf (db.answerChoices.filter (fun r => r.1 != key) ++
        (db.choices.filter (fun c => l.contains (PyAtom.str c.2))).map
          (fun c => (key, c.1))) key = freshChoices db.choices key l
      rw [rowsOf_append, rowsOf_delete_self, rowsOf_map_self, List.nil_append]
      rfl
    · intro k' hk'
      show rowsOf (db.answerChoices.filter (fun r => r.1 != key) ++
        (db.choices.filter (fun c => l.contains (PyAtom.str c.2))).map
          (fun c => (key, c.1))) k' = rowsOf db.answerChoices k'
      rw [rowsOf_append, rowsOf_delete_ne _ hk', rowsOf_map_ne _ _ hk',
        List.append_nil]

/-- Helper: the single-number branch of `save()` — the assertion
`len(cleaned) == 1` must hold, all prior number rows of the answer are
deleted and the sole element is stored; nothing else changes. -/
theorem processBranch_single_ok (cfg : Cfg) (db : DBState) (key : AnswerKey)
    (fld : DField) (v : PyVal) (wc : Bool) (db' : DBState)
    (h1 : fld.field_type ∉ cfg.choiceFields)
    (h2 : fld.field_type ∈ cfg.singleNumberFields)
    (h : processBranch cfg db key fld v wc = .ok db') :
    ∃ m, singleNumOf v = some m
      ∧ db'.submissions = db.submissions ∧ db'.dataForms = db.dataForms
      ∧ db'.fields = db.fields ∧ db'.choices = db.choices
      ∧ db'.answers = db.answers
      ∧ db'.answerChoices = db.answerChoices ∧ db'.answerTexts = db.answerTexts
      ∧ rowsNum db' key = [(key, m)]
      ∧ (∀ k', k' ≠ key → rowsNum db' k' = rowsNum db k') := by
  unfold processBranch at h
  rw [if_neg h1, if_pos h2] at h
  split at h
  · exact Except.noConfusion h
  · rename_i n hl
    split at h
    · rename_i hn1
      split at h
      · exact Except.noConfusion h
      · rename_i x hx
        split at h
        · exact Except.noConfusion h
        · rename_i m hm
          injection h with hdb
          subst hdb
          refine ⟨m, ?_, rfl, rfl, rfl, rfl, rfl, rfl, rfl, ?_, ?_⟩
          · simp [singleNumOf, hl, hn1, hx, hm]
          · show rowsOf (db.answerNumbers.filter (fun r => r.1 != key) ++ [(key, m)])
              key = [(key, m)]
            have hsing : [(key, m)] = [m].map (fun m => (key, m)) := rfl
            rw [rowsOf_append, rowsOf_delete_self, List.nil_append, hsing,
              rowsOf_map_self]
          · intro k' hk'
            show rowsOf (db.answerNumbers.filter (fun r => r.1 != key) ++ [(key, m)])
              k' = rowsOf db.answerNumbers k'
            have hsing : [(key, m)] = [m].map (fun m => (key, m)) := rfl
            rw [rowsOf_append, rowsOf_delete_ne _ hk', hsing, rowsOf_map_ne _ _ hk',
              List.append_nil]
    · exact Except.noConfusion h

/-- Helper: the multi-number branch of `save()` — delete all prior number
rows of the answer and store every value of the cleaned list; nothing else
changes. -/
theorem processBranch_multi_ok (cfg : Cfg) (db : DBState) (key : AnswerKey)
    (fld : DField) (v : PyVal) (wc : Bool) (db' : DBState)
    (h1 : fld.field_type ∉ cfg.choiceFields)
    (h2 : fld.field_type ∉ cfg.singleNumberFields)
    (h3 : fld.field_type ∈ cfg.multiNumberFields)
    (h : processBranch cfg db key fld v wc = .ok db') :
    ∃ ms, multiNumsOf v = some ms
      ∧ db'.submissions = db.submissions ∧ db'.dataForms = db.dataForms
      ∧ db'.fields = db.fields ∧ db'.choices = db.choices
      ∧ db'.answers = db.answers
      ∧ db'.answerChoices = db.answerChoices ∧ db'.answerTexts = db.answerTexts
      ∧ rowsNum db' key = ms.map (fun m => (key, m))
      ∧ (∀ k', k' ≠ key → rowsNum db' k' = rowsNum db k') := by
  unfold processBranch at h
  rw [if_neg h1, if_neg h2, if_pos h3] at h
  split at h
  · exact Except.noConfusion h
  · rename_i items hi
    split at h
    · exact Except.noConfusion h
    · rename_i ms hms
      injection h with hdb
      subst hdb
      refine ⟨ms, ?_, rfl, rfl, rfl, rfl, rfl, rfl, rfl, ?_, ?_⟩
      · unfold multiNumsOf
        rw [hi]
        exact hms
      · show rowsOf (db.answerNumbers.filter (fun r => r.1 != key) ++
          ms.map (fun m => (key, m))) key = ms.map (fun m => (key, m))
        rw [rowsOf_append, rowsOf_delete_self, rowsOf_map_self, List.nil_append]
      · intro k' hk'
        show rowsOf (db.answerNumbers.filter (fun r => r.1 != key) ++
          ms.map (fun m => (key, m))) k' = rowsOf db.answerNumbers k'
        rw [rowsOf_append, rowsOf_delete_ne _ hk', rowsOf_map_ne _ _ hk',
          List.append_nil]

/-- Helper: the text branch of `save()` — create the text row when the
answer is fresh (and its text rows were empty), else fetch-or-recreate the
single row and overwrite it; nothing else changes. -/
theorem processBranch_text_ok (cfg : Cfg) (db : DBState) (key : AnswerKey)
    (fld : DField) (v : PyVal) (wc : Bool) (db' : DBState)
    (h1 : fld.field_type ∉ cfg.choiceFields)
    (h2 : fld.field_type ∉ cfg.singleNumberFields)
    (h3 : fld.field_type ∉ cfg.multiNumberFields)
    (h : processBranch cfg db key fld v wc = .ok db') :
    db'.submissions = db.submissions ∧ db'.dataForms = db.dataForms
    ∧ db'.fields = db.fields ∧ db'.choices = db.choices
    ∧ db'.answers = db.answers
    ∧ db'.answerChoices = db.answerChoices ∧ db'.answerNumbers = db.answerNumbers
    ∧ ((wc = true → rowsText db key = []) →
        rowsText db' key = [(key, textOf (contentOf v))])
    ∧ (∀ k', k' ≠ key → rowsText db' k' = rowsText db k') := by
  unfold processBranch at h
  rw [if_neg h1, if_neg h2, if_neg h3] at h
  cases wc with
  | true =>
    rw [if_pos rfl] at h
    injection h with hdb
    subst hdb
    refine ⟨rfl, rfl, rfl, rfl, rfl, rfl, rfl, ?_, ?_⟩
    · intro hpre
      show rowsOf (db.answerTexts ++ [(key, textOf (contentOf v))]) key = _
      have hempty : rowsOf db.answerTexts key = [] := hpre rfl
      have hsing : [(key, textOf (contentOf v))] =
        [textOf (contentOf v)].map (fun t => (key, t)) := rfl
      rw [rowsOf_append, hempty, List.nil_append, hsing, rowsOf_map_self]
    · intro k' hk'
      show rowsOf (db.answerTexts ++ [(key, textOf (contentOf v))]) k' =
        rowsOf db.answerTexts k'
      have hsing : [(key, textOf (contentOf v))] =
        [textOf (contentOf v)].map (fun t => (key, t)) := rfl
      rw [rowsOf_append, hsing, rowsOf_map_ne _ _ hk', List.append_nil]
  | false =>
    rw [if_neg (by simp)] at h
    cases hfil : db.answerTexts.filter (fun r => r.1 == key) with
    | nil =>
      rw [hfil] at h
      injection h with hdb
      subst hdb
      refine ⟨rfl, rfl, rfl, rfl, rfl, rfl, rfl, ?_, ?_⟩
      · intro _
        show rowsOf (db.answerTexts ++ [(key, textOf (contentOf v))]) key = _
        have hempty : rowsOf db.answerTexts key = [] := hfil
        have hsing : [(key, textOf (contentOf v))] =
          [textOf (contentOf v)].map (fun t => (key, t)) := rfl
        rw [rowsOf_append, hempty, List.nil_append, hsing, rowsOf_map_self]
      · intro k' hk'
        show rowsOf (db.answerTexts ++ [(key, textOf (contentOf v))]) k' =
          rowsOf db.answerTexts k'
        have hsing : [(key, textOf (contentOf v))] =
          [textOf (contentOf v)].map (fun t => (key, t)) := rfl
        rw [rowsOf_append, hsing, rowsOf_map_ne _ _ hk', List.append_nil]
    | cons r0 rest =>
      cases rest with
      | nil =>
        rw [hfil] at h
        injection h with hdb
        subst hdb
        have hr0 : r0.1 = key := by
          have hin : r0 ∈ db.answerTexts.filter (fun r => r.1 == key) := by
            rw [hfil]
            simp
          simpa using (List.mem_filter.mp hin).2
        refine ⟨rfl, rfl, rfl, rfl, rfl, rfl, rfl, ?_, ?_⟩
        · intro _
          show rowsOf (db.answerTexts.map
            (fun r => if r.1 == key then (r.1, textOf (contentOf v)) else r)) key = _
          rw [rowsOf_update_self]
          have hrows : rowsOf db.answerTexts key = [r0] := hfil
          rw [hrows, List.map_cons, hr0]
          rfl
        · intro k' hk'
          show rowsOf (db.answerTexts.map
            (fun r => if r.1 == key then (r.1, textOf (contentOf v)) else r)) k' =
            rowsOf db.answerTexts k'
          exact rowsOf_update_ne _ _ hk'
      | cons r1 rest' =>
        rw [hfil] at h
        exact Except.noConfusion h

/-- Helper: choice rows depend only on the choice table. -/
theorem rowsChoices_congr {a b : DBState} (h : a.answerChoices = b.answerChoices)
    (k : AnswerKey) : rowsChoices a k = rowsChoices b k :=
  congrArg (fun l => rowsOf l k) h

/-- Helper: number rows depend only on the number table. -/
theorem rowsNum_congr {a b : DBState} (h : a.answerNumbers = b.answerNumbers)
    (k : AnswerKey) : rowsNum a k = rowsNum b k :=
  congrArg (fun l => rowsOf l k) h

/-- Helper: text rows depend only on the text table. -/
theorem rowsText_congr {a b : DBState} (h : a.answerTexts = b.answerTexts)
    (k : AnswerKey) : rowsText a k = rowsText b k :=
  congrArg (fun l => rowsOf l k) h

/-- Helper: answer counts depend only on the answer table. -/
theorem countAnswers_congr {a b : DBState} (h : a.answers = b.answers)
    (k : AnswerKey) : countAnswers a k = countAnswers b k :=
  congrArg (fun l => (List.filter (fun x => x == k) l).length) h

/-- Helper: inversion of one successful `save()` field iteration into its
lookup, get-or-create and branch steps. -/
theorem processField_ok_inv (cfg : Cfg) (sub fs : Slug) (db : DBState)
    (kv : Slug × PyVal) (db' : DBState)
    (h : processField cfg sub fs db kv = .ok db') :
    ∃ slug fld db1 wc, unpackSlug kv.1 = some slug
      ∧ lookupField db.fields slug = .ok fld
      ∧ (∃ u, lookupForm db.dataForms fs = .ok u)
      ∧ getOrCreateAnswer db ⟨sub, slug, fs⟩ = .ok (db1, wc)
      ∧ processBranch cfg db1 ⟨sub, slug, fs⟩ fld kv.2 wc = .ok db' := by
  unfold processField at h
  split at h
  · exact Except.noConfusion h
  · rename_i slug hupk
    split at h
    · exact Except.noConfusion h
    · rename_i fld hlf
      split at h
      · exact Except.noConfusion h
      · rename_i u hlfm
        split at h
        · exact Except.noConfusion h
        · rename_i db1 wc hga
          exact ⟨slug, fld, db1, wc, hupk, hlf, ⟨u, hlfm⟩, hga, h⟩

/-- Helper: full postcondition of one `save()` field iteration: meta tables
preserved, exactly one answer row for its key, all other keys untouched, and
the branch postcondition `FieldPost` against the pre-state. -/
theorem processField_post (cfg : Cfg) (sub fs : Slug) (db : DBState)
    (kv : Slug × PyVal) (db' : DBState) (slug : Slug)
    (h : processField cfg sub fs db kv = .ok db')
    (hupk : unpackSlug kv.1 = some slug) :
    ∃ fld, lookupField db.fields slug = .ok fld
      ∧ (∃ u, lookupForm db.dataForms fs = .ok u)
      ∧ metaEq db' db
      ∧ countAnswers db' ⟨sub, slug, fs⟩ = 1
      ∧ (∀ k', k' ≠ (⟨sub, slug, fs⟩ : AnswerKey) →
          rowsChoices db' k' = rowsChoices db k' ∧ rowsNum db' k' = rowsNum db k'
          ∧ rowsText db' k' = rowsText db k'
          ∧ countAnswers db' k' = countAnswers db k')
      ∧ FieldPost cfg db db' ⟨sub, slug, fs⟩ fld kv.2 := by
  obtain ⟨slug', fld, db1, wc, hupk', hlf, hlfm, hga, hbr⟩ :=
    processField_ok_inv cfg sub fs db kv db' h
  have hs : slug = slug' := by
    rw [hupk] at hupk'
    exact Option.some.inj hupk'
  subst hs
  obtain ⟨ha1, ha2, ha3, ha4, ha5, ha6, ha7, hacount, hacountne, hwc⟩ :=
    getOrCreateAnswer_ok db _ db1 wc hga
  by_cases hc : fld.field_type ∈ cfg.choiceFields
  · obtain ⟨l, hn, e1, e2, e3, e4, e5, e6, e7, hrows, hrowsne⟩ :=
      processBranch_choice_ok cfg db1 _ fld kv.2 wc db' hc hbr
    refine ⟨fld, hlf, hlfm,
      ⟨e1.trans ha1, e2.trans ha2, e3.trans ha3, e4.trans ha4⟩, ?_, ?_, ?_⟩
    · exact (countAnswers_congr e5 _).trans hacount
    · intro k' hk'
      exact ⟨(hrowsne k' hk').trans (rowsChoices_congr ha5 k'),
        rowsNum_congr (e6.trans ha6) k', rowsText_congr (e7.trans ha7) k',
        (countAnswers_congr e5 k').trans (hacountne k' hk')⟩
    · refine ⟨?_, fun hnc _ => absurd hc hnc, fun hnc _ _ => absurd hc hnc,
        fun hnc _ _ => absurd hc hnc⟩
      intro _
      refine ⟨l, hn, ?_, rowsNum_congr (e6.trans ha6) _, rowsText_congr (e7.trans ha7) _⟩
      rw [hrows]
      unfold freshChoices
      rw [ha4]
  · by_cases hsn : fld.field_type ∈ cfg.singleNumberFields
    · obtain ⟨m, hm, e1, e2, e3, e4, e5, e6, e7, hrows, hrowsne⟩ :=
        processBranch_single_ok cfg db1 _ fld kv.2 wc db' hc hsn hbr
      refine ⟨fld, hlf, hlfm,
        ⟨e1.trans ha1, e2.trans ha2, e3.trans ha3, e4.trans ha4⟩, ?_, ?_, ?_⟩
      · exact (countAnswers_congr e5 _).trans hacount
      · intro k' hk'
        exact ⟨rowsChoices_congr (e6.trans ha5) k',
          (hrowsne k' hk').trans (rowsNum_congr ha6 k'),
          rowsText_congr (e7.trans ha7) k',
          (countAnswers_congr e5 k').trans (hacountne k' hk')⟩
      · refine ⟨fun hcc => absurd hcc hc, ?_, fun _ hns _ => absurd hsn hns,
          fun _ hns _ => absurd hsn hns⟩
        intro _ _
        exact ⟨m, hm, hrows, rowsChoices_congr (e6.trans ha5) _,
          rowsText_congr (e7.trans ha7) _⟩
    · by_cases hmn : fld.field_type ∈ cfg.multiNumberFields
      · obtain ⟨ms, hms, e1, e2, e3, e4, e5, e6, e7, hrows, hrowsne⟩ :=
          processBranch_multi_ok cfg db1 _ fld kv.2 wc db' hc hsn hmn hbr
        refine ⟨fld, hlf, hlfm,
          ⟨e1.trans ha1, e2.trans ha2, e3.trans ha3, e4.trans ha4⟩, ?_, ?_, ?_⟩
        · exact (countAnswers_congr e5 _).trans hacount
        · intro k' hk'
          exact ⟨rowsChoices_congr (e6.trans ha5) k',
            (hrowsne k' hk').trans (rowsNum_congr ha6 k'),
            rowsText_congr (e7.trans ha7) k',
            (countAnswers_congr e5 k').trans (hacountne k' hk')⟩
        · refine ⟨fun hcc => absurd hcc hc, fun _ hns => absurd hns hsn, ?_,
            fun _ _ hnm => absurd hmn hnm⟩
          intro _ _ _
          exact ⟨ms, hms, hrows, rowsChoices_congr (e6.trans ha5) _,
            rowsText_congr (e7.trans ha7) _⟩
      · obtain ⟨e1, e2, e3, e4, e5, e6, e7, hrows, hrowsne⟩ :=
          processBranch_text_ok cfg db1 _ fld kv.2 wc db' hc hsn hmn hbr
        refine ⟨fld, hlf, hlfm,
          ⟨e1.trans ha1, e2.trans ha2, e3.trans ha3, e4.trans ha4⟩, ?_, ?_, ?_⟩
        · exact (countAnswers_congr e5 _).trans hacount
        · intro k' hk'
          exact ⟨rowsChoices_congr (e6.trans ha5) k',
            rowsNum_congr (e7.trans ha6) k',
            (hrowsne k' hk').trans (rowsText_congr ha7 k'),
            (countAnswers_congr e5 k').trans (hacountne k' hk')⟩
        · refine ⟨fun hcc => absurd hcc hc, fun _ hns => absurd hns hsn,
            fun _ _ hnm => absurd hnm hmn, ?_⟩
          intro _ _ _
          refine ⟨?_, rowsChoices_congr (e6.trans ha5) _, rowsNum_congr (e7.trans ha6) _⟩
          intro hpre
          apply hrows
          intro hwct
          have hmem : (⟨sub, slug, fs⟩ : AnswerKey) ∉ db.answers := hwc.mp hwct
          have hdb : rowsText db ⟨sub, slug, fs⟩ = [] := hpre hmem
          exact (rowsText_congr ha7 _).trans hdb

/-- Helper: transitivity of agreement on the read-only tables. -/
theorem metaEq_trans {a b c : DBState} (h1 : metaEq a b) (h2 : metaEq b c) :
    metaEq a c :=
  ⟨h1.1.trans h2.1, h1.2.1.trans h2.2.1, h1.2.2.1.trans h2.2.2.1,
    h1.2.2.2.trans h2.2.2.2⟩

/-- Helper: an answer has no rows in the answer table iff its count is 0. -/
theorem countAnswers_zero_iff (db : DBState) (k : AnswerKey) :
    countAnswers db k = 0 ↔ k ∉ db.answers := by
  unfold countAnswers
  rw [List.length_eq_zero, List.filter_eq_nil]
  constructor
  · intro hall hin
    exact absurd (by simp : (k == k) = true) (hall k hin)
  · intro hnin a ha
    simp only [beq_iff_eq]
    intro hak
    exact hnin (hak ▸ ha)

/-- Helper: a `FieldPost` against an intermediate pre-state transfers to an
earlier pre-state that agrees on the key's rows, the choice table and the
key's answer membership. -/
theorem FieldPost_shift_pre (cfg : Cfg) {db dbm db' : DBState} (key : AnswerKey)
    (fld : DField) (v : PyVal)
    (hch : dbm.choices = db.choices)
    (hc : rowsChoices dbm key = rowsChoices db key)
    (hn : rowsNum dbm key = rowsNum db key)
    (ht : rowsText dbm key = rowsText db key)
    (hmem : key ∈ dbm.answers ↔ key ∈ db.answers)
    (h : FieldPost cfg dbm db' key fld v) : FieldPost cfg db db' key fld v := by
  obtain ⟨h1, h2, h3, h4⟩ := h
  refine ⟨?_, ?_, ?_, ?_⟩
  · intro hcc
    obtain ⟨l, hl, hr, hrn, hrt⟩ := h1 hcc
    refine ⟨l, hl, ?_, hrn.trans hn, hrt.trans ht⟩
    rw [hr]
    unfold freshChoices
    rw [hch]
  · intro hnc hns
    obtain ⟨m, hm, hr, hrc, hrt⟩ := h2 hnc hns
    exact ⟨m, hm, hr, hrc.trans hc, hrt.trans ht⟩
  · intro hnc hns hnm
    obtain ⟨ms, hms, hr, hrc, hrt⟩ := h3 hnc hns hnm
    exact ⟨ms, hms, hr, hrc.trans hc, hrt.trans ht⟩
  · intro hnc hns hnm
    obtain ⟨hrt', hrc, hrn⟩ := h4 hnc hns hnm
    refine ⟨?_, hrc.trans hc, hrn.trans hn⟩
    intro hpre
    apply hrt'
    intro hmem'
    exact ht.trans (hpre (fun hin => hmem' (hmem.mpr hin)))

/-- Helper: a `FieldPost` transfers along a post-state that agrees on the
key's rows. -/
theorem FieldPost_shift_post (cfg : Cfg) {db db1 db' : DBState} (key : AnswerKey)
    (fld : DField) (v : PyVal)
    (hc : rowsChoices db' key = rowsChoices db1 key)
    (hn : rowsNum db' key = rowsNum db1 key)
    (ht : rowsText db' key = rowsText db1 key)
    (h : FieldPost cfg db db1 key fld v) : FieldPost cfg db db' key fld v := by
  obtain ⟨h1, h2, h3, h4⟩ := h
  refine ⟨?_, ?_, ?_, ?_⟩
  · intro hcc
    obtain ⟨l, hl, hr, hrn, hrt⟩ := h1 hcc
    exact ⟨l, hl, hc.trans hr, hn.trans hrn, ht.trans hrt⟩
  · intro hnc hns
    obtain ⟨m, hm, hr, hrc, hrt⟩ := h2 hnc hns
    exact ⟨m, hm, hn.trans hr, hc.trans hrc, ht.trans hrt⟩
  · intro hnc hns hnm
    obtain ⟨ms, hms, hr, hrc, hrt⟩ := h3 hnc hns hnm
    exact ⟨ms, hms, hn.trans hr, hc.trans hrc, ht.trans hrt⟩
  · intro hnc hns hnm
    obtain ⟨hrt', hrc, hrn⟩ := h4 hnc hns hnm
    exact ⟨fun hpre => ht.trans (hrt' hpre), hc.trans hrc, hn.trans hrn⟩

/-- Helper: the field loop of `save()` never writes the read-only tables. -/
theorem saveFields_meta (cfg : Cfg) (sub fs : Slug) :
    ∀ (fields : List (Slug × PyVal)) (db db' : DBState),
      saveFields cfg sub fs fields db = .ok db' → metaEq db' db := by
  intro fields
  induction fields with
  | nil =>
    intro db db' h
    injection h with h1
    subst h1
    exact ⟨rfl, rfl, rfl, rfl⟩
  | cons kv rest ih =>
    intro db db' h
    simp only [saveFields] at h
    split at h
    · exact Except.noConfusion h
    · rename_i db0 heq
      obtain ⟨slug, _, _, _, hupk, -, -, -, -⟩ :=
        processField_ok_inv cfg sub fs db kv db0 heq
      obtain ⟨fld, -, -, hmeta, -, -, -⟩ :=
        processField_post cfg sub fs db kv db0 slug heq hupk
      exact metaEq_trans (ih db0 db' h) hmeta

/-- Helper: the field loop leaves every answer key untouched that no field
of the loop maps to. -/
theorem saveFields_frame (cfg : Cfg) (sub fs : Slug) :
    ∀ (fields : List (Slug × PyVal)) (db db' : DBState) (key' : AnswerKey),
      saveFields cfg sub fs fields db = .ok db' →
      (∀ kv ∈ fields, ∀ s, unpackSlug kv.1 = some s →
        (⟨sub, s, fs⟩ : AnswerKey) ≠ key') →
      rowsChoices db' key' = rowsChoices db key' ∧ rowsNum db' key' = rowsNum db key'
      ∧ rowsText db' key' = rowsText db key'
      ∧ countAnswers db' key' = countAnswers db key' := by
  intro fields
  induction fields with
  | nil =>
    intro db db' key' h _
    injection h with h1
    subst h1
    exact ⟨rfl, rfl, rfl, rfl⟩
  | cons kv rest ih =>
    intro db db' key' h hne
    simp only [saveFields] at h
    split at h
    · exact Except.noConfusion h
    · rename_i db0 heq
      obtain ⟨slug, _, _, _, hupk, -, -, -, -⟩ :=
        processField_ok_inv cfg sub fs db kv db0 heq
      obtain ⟨fld, -, -, -, -, hframe, -⟩ :=
        processField_post cfg sub fs db kv db0 slug heq hupk
      have hk := hframe key'
        (Ne.symm (hne kv (List.mem_cons_self _ _) slug hupk))
      have hrest := ih db0 db' key' h
        (fun kv' hkv' => hne kv' (List.mem_cons_of_mem _ hkv'))
      exact ⟨hrest.1.trans hk.1, hrest.2.1.trans hk.2.1,
        hrest.2.2.1.trans hk.2.2.1, hrest.2.2.2.trans hk.2.2.2⟩

/-- Helper: every field of a successful loop run had its own iteration
succeed on some intermediate state with the same field table. -/
theorem saveFields_visits (cfg : Cfg) (sub fs : Slug) :
    ∀ (fields : List (Slug × PyVal)) (db db' : DBState),
      saveFields cfg sub fs fields db = .ok db' →
      ∀ kv ∈ fields, ∃ dbm db2, dbm.fields = db.fields
        ∧ processField cfg sub fs dbm kv = .ok db2 := by
  intro fields
  induction fields with
  | nil =>
    intro db db' _ kv hkv
    simp at hkv
  | cons kv0 rest ih =>
    intro db db' h kv hkv
    simp only [saveFields] at h
    split at h
    · exact Except.noConfusion h
    · rename_i db0 heq
      rcases List.mem_cons.mp hkv with rfl | hmem
      · exact ⟨db, db0, rfl, heq⟩
      · obtain ⟨slug, _, _, _, hupk, -, -, -, -⟩ :=
          processField_ok_inv cfg sub fs db kv0 db0 heq
        obtain ⟨fld, -, -, hmeta, -, -, -⟩ :=
          processField_post cfg sub fs db kv0 db0 slug heq hupk
        obtain ⟨dbm, db2, hfields, hpf⟩ := ih db0 db' h kv hmem
        exact ⟨dbm, db2, hfields.trans hmeta.2.2.1, hpf⟩

/-- Helper: the master specification of the field loop — for pairwise
distinct reverse-mangled slugs, a successful run establishes, for every
field, the lookups, a unique answer row and the branch postcondition
`FieldPost` against the loop's pre-state. -/
theorem saveFields_spec (cfg : Cfg) (sub fs : Slug) :
    ∀ (fields : List (Slug × PyVal)) (db db' : DBState),
      (fields.map (fun kv => unpackSlug kv.1)).Nodup →
      saveFields cfg sub fs fields db = .ok db' →
      ∀ kv ∈ fields, ∀ slug, unpackSlug kv.1 = some slug →
        ∃ fld, lookupField db.fields slug = .ok fld
          ∧ (∃ u, lookupForm db.dataForms fs = .ok u)
          ∧ countAnswers db' ⟨sub, slug, fs⟩ = 1
          ∧ FieldPost cfg db db' ⟨sub, slug, fs⟩ fld kv.2 := by
  intro fields
  induction fields with
  | nil =>
    intro db db' _ _ kv hkv
    simp at hkv
  | cons kv0 rest ih =>
    intro db db' hnd h kv hkv slug hupk
    simp only [saveFields] at h
    split at h
    · exact Except.noConfusion h
    · rename_i db0 heq
      rw [List.map_cons, List.nodup_cons] at hnd
      obtain ⟨hnotin, hndtail⟩ := hnd
      rcases List.mem_cons.mp hkv with rfl | hmem
      · obtain ⟨fld, hlf, hlfm, hmeta, hcount, hframe, hpost⟩ :=
          processField_post cfg sub fs db kv db0 slug heq hupk
        have hrestne : ∀ kv' ∈ rest, ∀ s, unpackSlug kv'.1 = some s →
            (⟨sub, s, fs⟩ : AnswerKey) ≠ ⟨sub, slug, fs⟩ := by
          intro kv' hkv' s hs hkeq
          injection hkeq with e1 e2 e3
          subst e2
          apply hnotin
          rw [hupk]
          exact hs ▸ List.mem_map_of_mem _ hkv'
        have hframe2 := saveFields_frame cfg sub fs rest db0 db'
          ⟨sub, slug, fs⟩ h hrestne
        refine ⟨fld, hlf, hlfm, hframe2.2.2.2.trans hcount, ?_⟩
        exact FieldPost_shift_post cfg _ fld kv.2 hframe2.1 hframe2.2.1
          hframe2.2.2.1 hpost
      · obtain ⟨slug0, fld0, db1, wc0, hupk0, -, -, -, -⟩ :=
          processField_ok_inv cfg sub fs db kv0 db0 heq
        obtain ⟨fld0', hlf0, hlfm0, hmeta0, hcount0, hframe0, hpost0⟩ :=
          processField_post cfg sub fs db kv0 db0 slug0 heq hupk0
        obtain ⟨fld, hlf, hlfm, hcount, hpost⟩ :=
          ih db0 db' hndtail h kv hmem slug hupk
        have hkne : (⟨sub, slug, fs⟩ : AnswerKey) ≠ ⟨sub, slug0, fs⟩ := by
          intro hkeq
          injection hkeq with e1 e2 e3
          apply hnotin
          rw [hupk0]
          exact (e2 ▸ hupk) ▸ List.mem_map_of_mem _ hmem
        have hfr := hframe0 _ hkne
        have hmemiff : (⟨sub, slug, fs⟩ : AnswerKey) ∈ db0.answers ↔
            (⟨sub, slug, fs⟩ : AnswerKey) ∈ db.answers := by
          constructor
          · intro hin
            by_contra hno
            have h0 : countAnswers db ⟨sub, slug, fs⟩ = 0 :=
              (countAnswers_zero_iff db _).mpr hno
            have h1 : countAnswers db0 ⟨sub, slug, fs⟩ = 0 :=
              hfr.2.2.2.trans h0
            exact absurd hin ((countAnswers_zero_iff db0 _).mp h1)
          · intro hin
            by_contra hno
            have h0 : countAnswers db0 ⟨sub, slug, fs⟩ = 0 :=
              (countAnswers_zero_iff db0 _).mpr hno
            have h1 : countAnswers db ⟨sub, slug, fs⟩ = 0 :=
              hfr.2.2.2.symm.trans h0
            exact absurd hin ((countAnswers_zero_iff db _).mp h1)
        refine ⟨fld, ?_, ?_, hcount, ?_⟩
        · rw [← hmeta0.2.2.1]
          exact hlf
        · obtain ⟨u, hu⟩ := hlfm
          refine ⟨u, ?_⟩
          rw [← hmeta0.2.1]
          exact hu
        · exact FieldPost_shift_pre cfg _ fld kv.2 hmeta0.2.2.2 hfr.1 hfr.2.1
            hfr.2.2.1 hmemiff hpost

/-- Helper: inversion of a successful single-number composite. -/
theorem singleNumOf_some_inv (v : PyVal) (m : Int) (h : singleNumOf v = some m) :
    pyLen v = some 1 ∧ ∃ x, pyIndex0 v = some x ∧ toNumber x = some m := by
  unfold singleNumOf at h
  split at h
  · exact Option.noConfusion h
  · rename_i n hl
    by_cases hn : n = 1
    · subst hn
      rw [if_pos rfl] at h
      cases hx : pyIndex0 v with
      | none => rw [hx] at h; exact Option.noConfusion h
      | some x =>
        rw [hx] at h
        exact ⟨hl, x, rfl, h⟩
    · rw [if_neg hn] at h
      exact Option.noConfusion h

/-- Helper: inversion of a successful multi-number composite. -/
theorem multiNumsOf_some_inv (v : PyVal) (ms : List Int)
    (h : multiNumsOf v = some ms) :
    ∃ items, pyIterList v = some items ∧ items.mapM toNumber = some ms := by
  unfold multiNumsOf at h
  cases hi : pyIterList v with
  | none => rw [hi] at h; exact Option.noConfusion h
  | some items =>
    rw [hi] at h
    exact ⟨items, rfl, h⟩

/-- Helper: one `save()` field iteration succeeds on any state satisfying
`FieldReady`. -/
theorem processField_ready (cfg : Cfg) (sub fs : Slug) (db : DBState)
    (kv : Slug × PyVal) (h : FieldReady cfg db sub fs kv.1 kv.2) :
    ∃ db', processField cfg sub fs db kv = .ok db' := by
  obtain ⟨slug, fld, hupk, hlf, ⟨u, hlfm⟩, hcount, hrc, hrs, hrm, hrt⟩ := h
  obtain ⟨a, hfil⟩ := filter_length_one _ _ hcount
  have hga : getOrCreateAnswer db ⟨sub, slug, fs⟩ = .ok (db, false) := by
    unfold getOrCreateAnswer
    rw [hfil]
  suffices hbr : ∃ db', processBranch cfg db ⟨sub, slug, fs⟩ fld kv.2 false = .ok db' by
    obtain ⟨db', hdb'⟩ := hbr
    refine ⟨db', ?_⟩
    unfold processField
    simp only [hupk, hlf, hlfm, hga]
    exact hdb'
  by_cases hc : fld.field_type ∈ cfg.choiceFields
  · obtain ⟨l, hl⟩ := hrc hc
    cases hres : processBranch cfg db ⟨sub, slug, fs⟩ fld kv.2 false with
    | ok db2 => exact ⟨db2, rfl⟩
    | error e =>
      exfalso
      unfold processBranch at hres
      rw [if_pos hc, hl] at hres
      exact Except.noConfusion hres
  · by_cases hs : fld.field_type ∈ cfg.singleNumberFields
    · obtain ⟨m, hm⟩ := hrs hc hs
      obtain ⟨hl1, x, hx, hnum⟩ := singleNumOf_some_inv kv.2 m hm
      cases hres : processBranch cfg db ⟨sub, slug, fs⟩ fld kv.2 false with
      | ok db2 => exact ⟨db2, rfl⟩
      | error e =>
        exfalso
        unfold processBranch at hres
        rw [if_neg hc, if_pos hs] at hres
        split at hres
        · rename_i hnone
          rw [hl1] at hnone
          exact Option.noConfusion hnone
        · rename_i n hn
          rw [hl1] at hn
          have hn1 : n = 1 := (Option.some.inj hn).symm
          subst hn1
          rw [if_pos rfl] at hres
          split at hres
          · rename_i hxe
            rw [hx] at hxe
            exact Option.noConfusion hxe
          · rename_i x' hx'
            rw [hx] at hx'
            have hxx : x' = x := (Option.some.inj hx').symm
            subst hxx
            split at hres
            · rename_i hne
              rw [hnum] at hne
              exact Option.noConfusion hne
            · exact Except.noConfusion hres
    · by_cases hmn : fld.field_type ∈ cfg.multiNumberFields
      · obtain ⟨ms, hms⟩ := hrm hc hs hmn
        obtain ⟨items, hi, hmap⟩ := multiNumsOf_some_inv kv.2 ms hms
        cases hres : processBranch cfg db ⟨sub, slug, fs⟩ fld kv.2 false with
        | ok db2 => exact ⟨db2, rfl⟩
        | error e =>
          exfalso
          unfold processBranch at hres
          rw [if_neg hc, if_neg hs, if_pos hmn] at hres
          split at hres
          · rename_i hie
            rw [hi] at hie
            exact Option.noConfusion hie
          · rename_i items' hi'
            rw [hi] at hi'
            have hii : items' = items := (Option.some.inj hi').symm
            subst hii
            split at hres
            · rename_i hmape
              rw [hmap] at hmape
              exact Option.noConfusion hmape
            · exact Except.noConfusion hres
      · obtain ⟨t, ht⟩ := hrt hc hs hmn
        have hft : db.answerTexts.filter (fun r => r.1 == ⟨sub, slug, fs⟩) = [t] := ht
        cases hres : processBranch cfg db ⟨sub, slug, fs⟩ fld kv.2 false with
        | ok db2 => exact ⟨db2, rfl⟩
        | error e =>
          exfalso
          unfold processBranch at hres
          rw [if_neg hc, if_neg hs, if_neg hmn, if_neg (by simp), hft] at hres
          exact Except.noConfusion hres

/-- Helper: the whole field loop succeeds on any state in which every field
is ready (as after a first successful save). -/
theorem saveFields_ready (cfg : Cfg) (sub fs : Slug) :
    ∀ (fields : List (Slug × PyVal)) (db : DBState),
      (fields.map (fun kv => unpackSlug kv.1)).Nodup →
      (∀ kv ∈ fields, FieldReady cfg db sub fs kv.1 kv.2) →
      ∃ db', saveFields cfg sub fs fields db = .ok db' := by
  intro fields
  induction fields with
  | nil => exact fun db _ _ => ⟨db, rfl⟩
  | cons kv0 rest ih =>
    intro db hnd hready
    obtain ⟨db0, hpf⟩ :=
      processField_ready cfg sub fs db kv0 (hready kv0 (List.mem_cons_self _ _))
    rw [List.map_cons, List.nodup_cons] at hnd
    obtain ⟨hnotin, hndtail⟩ := hnd
    obtain ⟨slug0, _, _, _, hupk0, -, -, -, -⟩ :=
      processField_ok_inv cfg sub fs db kv0 db0 hpf
    obtain ⟨fld0, hlf0, hlfm0, hmeta0, hcount0, hframe0, hpost0⟩ :=
      processField_post cfg sub fs db kv0 db0 slug0 hpf hupk0
    have hready' : ∀ kv ∈ rest, FieldReady cfg db0 sub fs kv.1 kv.2 := by
      intro kv hkv
      obtain ⟨slug, fld, hupk, hlf, ⟨u, hlfm⟩, hcount, hrc, hrs, hrm, hrt⟩ :=
        hready kv (List.mem_cons_of_mem _ hkv)
      have hkne : (⟨sub, slug, fs⟩ : AnswerKey) ≠ ⟨sub, slug0, fs⟩ := by
        intro hkeq
        injection hkeq with e1 e2 e3
        apply hnotin
        rw [hupk0]
        exact (e2 ▸ hupk) ▸ List.mem_map_of_mem _ hkv
      have hfr := hframe0 _ hkne
      refine ⟨slug, fld, hupk, ?_, ⟨u, ?_⟩, ?_, hrc, hrs, hrm, ?_⟩
      · rw [hmeta0.2.2.1]
        exact hlf
      · rw [hmeta0.2.1]
        exact hlfm
      · exact hfr.2.2.2.trans hcount
      · intro h1 h2 h3
        obtain ⟨t, ht⟩ := hrt h1 h2 h3
        exact ⟨t, hfr.2.2.1.trans ht⟩
    obtain ⟨db', hsf⟩ := ih db0 hndtail hready'
    refine ⟨db', ?_⟩
    simp only [saveFields, hpf]
    exact hsf

/-- Helper: a successful `save()` decomposes into the submission step and
the field loop, with the field loop's pre-state differing from the original
store at most in the submission table. -/
theorem save_destruct (cfg : Cfg) (form : FormModel) (db db' : DBState)
    (form' : FormModel) (h : save cfg form db = .ok (db', form')) :
    ∃ db1, db1.dataForms = db.dataForms ∧ db1.fields = db.fields
      ∧ db1.choices = db.choices ∧ db1.answers = db.answers
      ∧ db1.answerChoices = db.answerChoices
      ∧ db1.answerNumbers = db.answerNumbers ∧ db1.answerTexts = db.answerTexts
      ∧ saveFields cfg (subOf form) form.slug form.fields db1 = .ok db'
      ∧ form' = { form with submission := some (subOf form) } := by
  unfold save at h
  split at h
  · rename_i sub hsub
    split at h
    · exact Except.noConfusion h
    · rename_i db'2 hsf
      injection h with h1
      injection h1 with hdb hform
      subst hdb
      subst hform
      have hsubof : subOf form = sub := by
        unfold subOf
        rw [hsub]
        rfl
      refine ⟨db, rfl, rfl, rfl, rfl, rfl, rfl, rfl, ?_, ?_⟩
      · rw [hsubof]
        exact hsf
      · rw [hsubof, ← hsub]
  · rename_i hsub
    split at h
    · exact Except.noConfusion h
    · rename_i db1 wc hgo
      split at h
      · exact Except.noConfusion h
      · rename_i db'2 hsf
        injection h with h1
        injection h1 with hdb hform
        subst hdb
        subst hform
        obtain ⟨e1, e2, e3, e4, e5, e6, e7⟩ :=
          getOrCreateSubmission_ok db form.submission_slug db1 wc hgo
        have hsubof : subOf form = form.submission_slug := by
          unfold subOf
          rw [hsub]
          rfl
        refine ⟨db1, e1, e2, e3, e4, e5, e6, e7, ?_, ?_⟩
        · rw [hsubof]
          exact hsf
        · rw [hsubof]

/-- Helper: `save()` on a form whose `self.submission` is already set goes
straight to the field loop. -/
theorem save_submission_some (cfg : Cfg) (form : FormModel) (db : DBState)
    (sub : Slug) (hs : form.submission = some sub) :
    save cfg form db =
      match saveFields cfg sub form.slug form.fields db with
      | .error e => .error e
      | .ok db' => .ok (db', form) := by
  unfold save
  rw [hs]

/-- C1: for every field classified as choice-type or multi-number, a
successful `save()` fully replaces the answer's stored value rows with rows
derived purely from the latest cleaned value (and the global choice table)
— no previously stored row for that answer survives. -/
theorem save_replaces_values (cfg : Cfg) (form : FormModel) (db db' : DBState)
    (form' : FormModel)
    (hnd : (form.fields.map (fun kv => unpackSlug kv.1)).Nodup)
    (hok : save cfg form db = .ok (db', form'))
    (k : Slug) (v : PyVal) (hmem : (k, v) ∈ form.fields)
    (slug : Slug) (hupk : unpackSlug k = some slug)
    (fld : DField) (hfld : lookupField db.fields slug = .ok fld) :
    (fld.field_type ∈ cfg.choiceFields →
      ∃ l, normalizeToList v = some l ∧
        rowsChoices db' ⟨subOf form, slug, form.slug⟩ =
          freshChoices db.choices ⟨subOf form, slug, form.slug⟩ l)
    ∧ (fld.field_type ∉ cfg.choiceFields → fld.field_type ∉ cfg.singleNumberFields →
        fld.field_type ∈ cfg.multiNumberFields →
      ∃ ms, multiNumsOf v = some ms ∧
        rowsNum db' ⟨subOf form, slug, form.slug⟩ =
          ms.map (fun m => ((⟨subOf form, slug, form.slug⟩ : AnswerKey), m))) := by
  obtain ⟨db1, e1, e2, e3, e4, e5, e6, e7, hsf, hform⟩ :=
    save_destruct cfg form db db' form' hok
  obtain ⟨fld', hlf', hlfm', hcount', hpost'⟩ :=
    saveFields_spec cfg (subOf form) form.slug form.fields db1 db' hnd hsf
      (k, v) hmem slug hupk
  have hflds : fld = fld' := by
    rw [e2, hfld] at hlf'
    exact Except.ok.inj hlf'
  subst hflds
  constructor
  · intro hc
    obtain ⟨l, hl, hr, -, -⟩ := hpost'.1 hc
    refine ⟨l, hl, ?_⟩
    rw [hr]
    unfold freshChoices
    rw [e3]
  · intro hn1 hn2 hn3
    obtain ⟨ms, hms, hr, -, -⟩ := hpost'.2.2.1 hn1 hn2 hn3
    exact ⟨ms, hms, hr⟩

/-- C8: for a field classified as single-number, `save()` raises (a failed
assertion) whenever the cleaned value list does not have exactly one
element — it can never succeed on such data — and under the precondition
that the list has exactly one element a successful save leaves exactly that
sole element as the answer's stored numbers. -/
theorem save_single_number_assert (cfg : Cfg) (form : FormModel) (db : DBState)
    (k : Slug) (l : List PyAtom) (slug : Slug) (fld : DField)
    (hmem : (k, PyVal.list l) ∈ form.fields)
    (hupk : unpackSlug k = some slug)
    (hfld : lookupField db.fields slug = .ok fld)
    (hnc : fld.field_type ∉ cfg.choiceFields)
    (hsn : fld.field_type ∈ cfg.singleNumberFields) :
    (l.length ≠ 1 → ∀ r, save cfg form db ≠ .ok r)
    ∧ (∀ db' form', save cfg form db = .ok (db', form') →
        (form.fields.map (fun kv => unpackSlug kv.1)).Nodup →
        l.length = 1 ∧ ∃ m, singleNumOf (PyVal.list l) = some m ∧
          rowsNum db' ⟨subOf form, slug, form.slug⟩ =
            [(⟨subOf form, slug, form.slug⟩, m)]) := by
  constructor
  · intro hlen r hok
    obtain ⟨db', form'⟩ := r
    obtain ⟨db1, e1, e2, e3, e4, e5, e6, e7, hsf, -⟩ :=
      save_destruct cfg form db db' form' hok
    obtain ⟨dbm, db2, hfields, hpf⟩ :=
      saveFields_visits cfg (subOf form) form.slug form.fields db1 db' hsf
        (k, PyVal.list l) hmem
    obtain ⟨slug', fld', db1', wc, hupk', hlf', -, -, hbr⟩ :=
      processField_ok_inv cfg (subOf form) form.slug dbm (k, PyVal.list l) db2 hpf
    have hslug : slug' = slug := Option.some.inj (hupk'.symm.trans hupk)
    subst hslug
    have hflds : fld = fld' := by
      rw [hfields, e2, hfld] at hlf'
      exact Except.ok.inj hlf'
    subst hflds
    obtain ⟨m, hm, -, -, -, -, -, -, -, -, -⟩ :=
      processBranch_single_ok cfg db1' _ fld _ wc db2 hnc hsn hbr
    obtain ⟨hl1, -, -⟩ := singleNumOf_some_inv _ m hm
    have hlone : l.length = 1 :=
      Option.some.inj ((rfl : pyLen (PyVal.list l) = some l.length).symm.trans hl1)
    exact hlen hlone
  · intro db' form' hok hnd
    obtain ⟨db1, e1, e2, e3, e4, e5, e6, e7, hsf, -⟩ :=
      save_destruct cfg form db db' form' hok
    obtain ⟨fld', hlf', -, -, hpost⟩ :=
      saveFields_spec cfg (subOf form) form.slug form.fields db1 db' hnd hsf
        (k, PyVal.list l) hmem slug hupk
    have hflds : fld = fld' := by
      rw [e2, hfld] at hlf'
      exact Except.ok.inj hlf'
    subst hflds
    obtain ⟨m, hm, hr, -, -⟩ := hpost.2.1 hnc hsn
    obtain ⟨hl1, -, -⟩ := singleNumOf_some_inv _ m hm
    have hlone : l.length = 1 :=
      Option.some.inj ((rfl : pyLen (PyVal.list l) = some l.length).symm.trans hl1)
    exact ⟨hlone, m, hm, hr⟩

/-- C5: `save()` is idempotent — under the no-orphan-text precondition, a
second `save()` on the form object returned by a first successful save
succeeds, leaves exactly one `Answer` row per (Submission, Field, Form)
triple of the form, and leaves exactly the same choice, number and text
rows for every such answer as the first save did. -/
theorem save_idempotent (cfg : Cfg) (form : FormModel) (db db1 : DBState)
    (f1 : FormModel)
    (hnd : (form.fields.map (fun kv => unpackSlug kv.1)).Nodup)
    (horph : ∀ kv ∈ form.fields, ∀ slug, unpackSlug kv.1 = some slug →
      (⟨subOf form, slug, form.slug⟩ : AnswerKey) ∉ db.answers →
      rowsText db ⟨subOf form, slug, form.slug⟩ = [])
    (h1 : save cfg form db = .ok (db1, f1)) :
    ∃ db2, save cfg f1 db1 = .ok (db2, f1)
      ∧ ∀ kv ∈ form.fields, ∀ slug, unpackSlug kv.1 = some slug →
          countAnswers db2 ⟨subOf form, slug, form.slug⟩ = 1
          ∧ rowsChoices db2 ⟨subOf form, slug, form.slug⟩ =
              rowsChoices db1 ⟨subOf form, slug, form.slug⟩
          ∧ rowsNum db2 ⟨subOf form, slug, form.slug⟩ =
              rowsNum db1 ⟨subOf form, slug, form.slug⟩
          ∧ rowsText db2 ⟨subOf form, slug, form.slug⟩ =
              rowsText db1 ⟨subOf form, slug, form.slug⟩ := by
  obtain ⟨dbs, e1, e2, e3, e4, e5, e6, e7, hsf, hform⟩ :=
    save_destruct cfg form db db1 f1 h1
  subst hform
  have hmeta1 : metaEq db1 dbs :=
    saveFields_meta cfg (subOf form) form.slug form.fields dbs db1 hsf
  have hready : ∀ kv ∈ form.fields,
      FieldReady cfg db1 (subOf form) form.slug kv.1 kv.2 := by
    intro kv hkv
    obtain ⟨slug, hupk⟩ : ∃ slug, unpackSlug kv.1 = some slug := by
      obtain ⟨dbm, db2x, -, hpf⟩ :=
        saveFields_visits cfg (subOf form) form.slug form.fields dbs db1 hsf kv hkv
      obtain ⟨slug, -, -, -, hupk, -, -, -, -⟩ :=
        processField_ok_inv cfg (subOf form) form.slug dbm kv db2x hpf
      exact ⟨slug, hupk⟩
    obtain ⟨fld, hlf, hlfm, hcount, hpost⟩ :=
      saveFields_spec cfg (subOf form) form.slug form.fields dbs db1 hnd hsf
        kv hkv slug hupk
    refine ⟨slug, fld, hupk, ?_, ?_, hcount, ?_, ?_, ?_, ?_⟩
    · rw [hmeta1.2.2.1]
      exact hlf
    · obtain ⟨u, hu⟩ := hlfm
      refine ⟨u, ?_⟩
      rw [hmeta1.2.1]
      exact hu
    · intro hc
      obtain ⟨l, hl, -, -, -⟩ := hpost.1 hc
      exact ⟨l, hl⟩
    · intro hncp hsp
      obtain ⟨m, hm, -, -, -⟩ := hpost.2.1 hncp hsp
      exact ⟨m, hm⟩
    · intro hncp hnsp hmp
      obtain ⟨ms, hms, -, -, -⟩ := hpost.2.2.1 hncp hnsp hmp
      exact ⟨ms, hms⟩
    · intro hncp hnsp hnmp
      obtain ⟨htext, -, -⟩ := hpost.2.2.2 hncp hnsp hnmp
      refine ⟨((⟨subOf form, slug, form.slug⟩ : AnswerKey), textOf (contentOf kv.2)), ?_⟩
      apply htext
      intro hnin
      have hnin' : (⟨subOf form, slug, form.slug⟩ : AnswerKey) ∉ db.answers := by
        rw [← e4]
        exact hnin
      exact (rowsText_congr e7 _).trans (horph kv hkv slug hupk hnin')
  obtain ⟨db2, hsf2⟩ :=
    saveFields_ready cfg (subOf form) form.slug form.fields db1 hnd hready
  have hsave2 : save cfg { form with submission := some (subOf form) } db1 =
      .ok (db2, { form with submission := some (subOf form) }) := by
    rw [save_submission_some cfg _ db1 (subOf form) rfl]
    have hsf2' : saveFields cfg (subOf form)
        ({ form with submission := some (subOf form) } : FormModel).slug
        ({ form with submission := some (subOf form) } : FormModel).fields db1 =
        .ok db2 := hsf2
    rw [hsf2']
  refine ⟨db2, hsave2, ?_⟩
  intro kv hkv slug hupk
  obtain ⟨fld1, hlf1, -, hcount1, hpost1⟩ :=
    saveFields_spec cfg (subOf form) form.slug form.fields dbs db1 hnd hsf
      kv hkv slug hupk
  obtain ⟨fld2, hlf2, -, hcount2, hpost2⟩ :=
    saveFields_spec cfg (subOf form) form.slug form.fields db1 db2 hnd hsf2
      kv hkv slug hupk
  have hfldeq : fld1 = fld2 := by
    rw [hmeta1.2.2.1, hlf1] at hlf2
    exact Except.ok.inj hlf2
  subst hfldeq
  refine ⟨hcount2, ?_⟩
  by_cases hc : fld1.field_type ∈ cfg.choiceFields
  · obtain ⟨l2, hl2, hr2c, hr2n, hr2t⟩ := hpost2.1 hc
    obtain ⟨l1, hl1, hr1c, -, -⟩ := hpost1.1 hc
    have hleq : l2 = l1 := Option.some.inj (hl2.symm.trans hl1)
    subst hleq
    refine ⟨?_, hr2n, hr2t⟩
    rw [hr2c, hr1c]
    unfold freshChoices
    rw [hmeta1.2.2.2]
  · by_cases hs : fld1.field_type ∈ cfg.singleNumberFields
    · obtain ⟨m2, hm2, hr2n, hr2c, hr2t⟩ := hpost2.2.1 hc hs
      obtain ⟨m1, hm1, hr1n, -, -⟩ := hpost1.2.1 hc hs
      have hmeq : m2 = m1 := Option.some.inj (hm2.symm.trans hm1)
      subst hmeq
      exact ⟨hr2c, hr2n.trans hr1n.symm, hr2t⟩
    · by_cases hmn : fld1.field_type ∈ cfg.multiNumberFields
      · obtain ⟨ms2, hms2, hr2n, hr2c, hr2t⟩ := hpost2.2.2.1 hc hs hmn
        obtain ⟨ms1, hms1, hr1n, -, -⟩ := hpost1.2.2.1 hc hs hmn
        have hmseq : ms2 = ms1 := Option.some.inj (hms2.symm.trans hms1)
        subst hmseq
        exact ⟨hr2c, hr2n.trans hr1n.symm, hr2t⟩
      · obtain ⟨htext2, hr2c, hr2n⟩ := hpost2.2.2.2 hc hs hmn
        obtain ⟨htext1, -, -⟩ := hpost1.2.2.2 hc hs hmn
        have hmem1 : (⟨subOf form, slug, form.slug⟩ : AnswerKey) ∈ db1.answers := by
          by_contra hno
          have h0 : countAnswers db1 ⟨subOf form, slug, form.slug⟩ = 0 :=
            (countAnswers_zero_iff db1 _).mpr hno
          rw [hcount1] at h0
          cases h0
        have ht2 : rowsText db2 ⟨subOf form, slug, form.slug⟩ =
            [(⟨subOf form, slug, form.slug⟩, textOf (contentOf kv.2))] :=
          htext2 (fun hnin => absurd hmem1 hnin)
        have ht1 : rowsText db1 ⟨subOf form, slug, form.slug⟩ =
            [(⟨subOf form, slug, form.slug⟩, textOf (contentOf kv.2))] := by
          apply htext1
          intro hnin
          have hnin' : (⟨subOf form, slug, form.slug⟩ : AnswerKey) ∉ db.answers := by
            rw [← e4]
            exact hnin
          exact (rowsText_congr e7 _).trans (horph kv hkv slug hupk hnin')
        exact ⟨hr2c, hr2n, ht2.trans ht1.symm⟩

/-- Concrete double save: the second save replaces the choice rows
{A, B} by {C} and the number rows {1, 2, 3} by {5}. -/
theorem save_replaces_values_witness :
    save cfgS formAB dbW = .ok (dbW1, formABs)
    ∧ save cfgS formC dbW1 = .ok (dbW2, formCs)
    ∧ rowsChoices dbW2 keyF1 = [(keyF1, 3)]
    ∧ rowsNum dbW2 keyF2 = [(keyF2, 5)] := by
  refine ⟨rfl, rfl, ?_, ?_⟩
  · have h := (save_replaces_values cfgS formC dbW1 dbW2 formCs (by decide) rfl
      (str "fm--f1") (PyVal.list [.str (str "C")]) (by decide)
      (str "f1") (by decide) ⟨str "f1", str "choice"⟩ rfl).1 (by decide)
    obtain ⟨l, hl, hr⟩ := h
    have hleq : l = [PyAtom.str (str "C")] :=
      (Option.some.inj ((rfl :
        normalizeToList (PyVal.list [.str (str "C")]) =
          some [PyAtom.str (str "C")]).symm.trans hl)).symm
    subst hleq
    have hkey : (⟨subOf formC, str "f1", formC.slug⟩ : AnswerKey) = keyF1 := by decide
    rw [hkey] at hr
    rw [hr]
    decide
  · have h := (save_replaces_values cfgS formC dbW1 dbW2 formCs (by decide) rfl
      (str "fm--f2") (PyVal.list [.num 5]) (by decide)
      (str "f2") (by decide) ⟨str "f2", str "mnum"⟩ rfl).2
        (by decide) (by decide) (by decide)
    obtain ⟨ms, hms, hr⟩ := h
    have hmseq : ms = [(5 : Int)] :=
      (Option.some.inj ((rfl :
        multiNumsOf (PyVal.list [.num 5]) = some [(5 : Int)]).symm.trans hms)).symm
    subst hmseq
    have hkey : (⟨subOf formC, str "f2", formC.slug⟩ : AnswerKey) = keyF2 := by decide
    rw [hkey] at hr
    rw [hr]
    decide

/-- Concrete single-number saves: a two-element cleaned list makes
`save()` fail the assertion (it can never succeed), and a one-element list
saves its sole number. -/
theorem save_single_number_assert_witness :
    save cfgS formBad dbW = .error .assertionError
    ∧ (∀ r, save cfgS formBad dbW ≠ .ok r)
    ∧ rowsNum dbSnum1 keyF3 = [(keyF3, 7)] := by
  refine ⟨rfl, ?_, ?_⟩
  · exact (save_single_number_assert cfgS formBad dbW (str "fm--f3")
      [.num 7, .num 8] (str "f3") ⟨str "f3", str "snum"⟩
      (by decide) (by decide) rfl (by decide) (by decide)).1 (by decide)
  · have h := (save_single_number_assert cfgS formSnum dbW (str "fm--f3")
      [.num 7] (str "f3") ⟨str "f3", str "snum"⟩
      (by decide) (by decide) rfl (by decide) (by decide)).2
        dbSnum1 formSnumS rfl (by decide)
    obtain ⟨-, m, hm, hr⟩ := h
    have hmeq : m = 7 :=
      (Option.some.inj ((rfl :
        singleNumOf (PyVal.list [.num 7]) = some 7).symm.trans hm)).symm
    subst hmeq
    have hkey : (⟨subOf formSnum, str "f3", formSnum.slug⟩ : AnswerKey) = keyF3 := by
      decide
    rw [hkey] at hr
    exact hr

/-- Concrete idempotence: saving `formT` twice succeeds, and the second
save leaves one answer per field and the same stored rows. -/
theorem save_idempotent_witness :
    ∃ db2, save cfgS formTs dbT1 = .ok (db2, formTs)
      ∧ countAnswers db2 keyF4 = 1
      ∧ rowsChoices db2 keyF1 = rowsChoices dbT1 keyF1
      ∧ rowsText db2 keyF4 = rowsText dbT1 keyF4 := by
  obtain ⟨db2, hs, hall⟩ := save_idempotent cfgS formT dbW dbT1 formTs (by decide)
    (fun kv _ slug _ _ => rfl) rfl
  obtain ⟨hc4, -, -, ht4⟩ := hall (str "fm--f4", PyVal.str (str "hello")) (by decide)
    (str "f4") (by decide)
  obtain ⟨-, hch1, -, -⟩ := hall (str "fm--f1", PyVal.list [.str (str "A")]) (by decide)
    (str "f1") (by decide)
  have hk4 : (⟨subOf formT, str "f4", formT.slug⟩ : AnswerKey) = keyF4 := by decide
  have hk1 : (⟨subOf formT, str "f1", formT.slug⟩ : AnswerKey) = keyF1 := by decide
  rw [hk4] at hc4 ht4
  rw [hk1] at hch1
  exact ⟨db2, hs, hc4, hch1, ht4⟩

end Dataforms
